import Mathlib

/-!
Verification development for the BGModel core (BGBaseClasses.py, BGActionClasses.py,
Settings.py).  Timestamps are modelled as integers (UTC seconds); all other numeric
quantities as real numbers.  `time.localtime` is modelled as the UTC decomposition of
the epoch second (hour / minute / second of day).
-/

namespace BGModel

/-! ### Local-time decomposition (model of `time.localtime`) -/

/-- Model of `time.localtime(t).tm_hour` (in UTC). -/
def tmHour (t : ℤ) : ℕ := (t % 86400).toNat / 3600

/-- Model of `time.localtime(t).tm_min` (in UTC). -/
def tmMin (t : ℤ) : ℕ := (t % 3600).toNat / 60

/-- Model of `time.localtime(t).tm_sec` (in UTC). -/
def tmSec (t : ℤ) : ℕ := (t % 60).toNat

theorem tmHour_lt_24 (t : ℤ) : tmHour t < 24 := by
  unfold tmHour
  omega

theorem tmMin_lt_60 (t : ℤ) : tmMin t < 60 := by
  unfold tmMin
  omega

/-! ### InsulinActionCurve (BGBaseClasses.py lines 6-11) -/

/-- Model of `InsulinActionCurve(time_hr, Ta)`:
`0` for `time_hr < 0`, otherwise `1 - 0.05 ** ((time_hr/Ta) ** 2)`. -/
noncomputable def InsulinActionCurve (time_hr Ta : ℝ) : ℝ :=
  if time_hr < 0 then 0
  else 1 - (0.05 : ℝ) ^ (((time_hr / Ta) ^ (2 : ℕ) : ℝ))

theorem InsulinActionCurve_of_neg {time_hr : ℝ} (Ta : ℝ) (h : time_hr < 0) :
    InsulinActionCurve time_hr Ta = 0 := by
  simp [InsulinActionCurve, h]

theorem InsulinActionCurve_of_nonneg {time_hr : ℝ} (Ta : ℝ) (h : 0 ≤ time_hr) :
    InsulinActionCurve time_hr Ta = 1 - (0.05 : ℝ) ^ (((time_hr / Ta) ^ (2 : ℕ) : ℝ)) := by
  simp [InsulinActionCurve, not_lt.mpr h]

theorem InsulinActionCurve_zero (Ta : ℝ) : InsulinActionCurve 0 Ta = 0 := by
  rw [InsulinActionCurve_of_nonneg Ta le_rfl]
  norm_num

theorem InsulinActionCurve_nonneg (time_hr Ta : ℝ) : 0 ≤ InsulinActionCurve time_hr Ta := by
  unfold InsulinActionCurve
  split
  · exact le_rfl
  · have h1 : (0.05 : ℝ) ^ (((time_hr / Ta) ^ (2 : ℕ) : ℝ)) ≤ 1 :=
      Real.rpow_le_one (by norm_num) (by norm_num) (by positivity)
    linarith

theorem InsulinActionCurve_le_one (time_hr Ta : ℝ) : InsulinActionCurve time_hr Ta ≤ 1 := by
  unfold InsulinActionCurve
  split
  · norm_num
  · have h1 : (0 : ℝ) ≤ (0.05 : ℝ) ^ (((time_hr / Ta) ^ (2 : ℕ) : ℝ)) :=
      Real.rpow_nonneg (by norm_num) _
    linarith

theorem InsulinActionCurve_mono {Ta : ℝ} (hTa : 0 < Ta) :
    Monotone (fun t => InsulinActionCurve t Ta) := by
  intro s t hst
  simp only
  by_cases hs : s < 0
  · rw [InsulinActionCurve_of_neg Ta hs]
    exact InsulinActionCurve_nonneg t Ta
  · push_neg at hs
    have ht : 0 ≤ t := le_trans hs hst
    rw [InsulinActionCurve_of_nonneg Ta hs, InsulinActionCurve_of_nonneg Ta ht]
    have hdiv : s / Ta ≤ t / Ta := by gcongr
    have hsq : (s / Ta) ^ (2 : ℕ) ≤ (t / Ta) ^ (2 : ℕ) :=
      pow_le_pow_left₀ (div_nonneg hs hTa.le) hdiv 2
    have := Real.rpow_le_rpow_of_exponent_ge (x := (0.05 : ℝ)) (by norm_num) (by norm_num) hsq
    linarith

theorem InsulinActionCurve_pos {t Ta : ℝ} (hTa : 0 < Ta) (ht : 0 < t) :
    0 < InsulinActionCurve t Ta := by
  rw [InsulinActionCurve_of_nonneg Ta ht.le]
  have hexp : (0 : ℝ) < (t / Ta) ^ (2 : ℕ) := by positivity
  have := Real.rpow_lt_one (x := (0.05 : ℝ)) (by norm_num) (by norm_num) hexp
  linarith

open Filter in
theorem InsulinActionCurve_tendsto_one {Ta : ℝ} (hTa : 0 < Ta) :
    Tendsto (fun t => InsulinActionCurve t Ta) atTop (nhds 1) := by
  have hbase : Tendsto (fun y : ℝ => (0.05 : ℝ) ^ y) atTop (nhds 0) :=
    tendsto_rpow_atTop_of_base_lt_one 0.05 (by norm_num) (by norm_num)
  have hin : Tendsto (fun t : ℝ => ((t / Ta) ^ (2 : ℕ) : ℝ)) atTop atTop := by
    have h1 : Tendsto (fun t : ℝ => t / Ta) atTop atTop :=
      Tendsto.atTop_div_const hTa tendsto_id
    exact (tendsto_pow_atTop (n := 2) (by norm_num)).comp h1
  have hcomp : Tendsto (fun t : ℝ => (0.05 : ℝ) ^ (((t / Ta) ^ (2 : ℕ) : ℝ))) atTop (nhds 0) :=
    hbase.comp hin
  have hlim : Tendsto (fun t : ℝ => 1 - (0.05 : ℝ) ^ (((t / Ta) ^ (2 : ℕ) : ℝ)))
      atTop (nhds 1) := by
    simpa using (tendsto_const_nhds (x := (1:ℝ)) (f := atTop)).sub hcomp
  refine hlim.congr' ?_
  filter_upwards [eventually_ge_atTop (0 : ℝ)] with t ht
  rw [InsulinActionCurve_of_nonneg Ta ht]

/-! ### TrueUserProfile (Settings.py lines 121-232) -/

/-- The five parallel half-hour-binned arrays of `TrueUserProfile`
(`binWidth_hr = 0.5`, `nBins = 48`). -/
structure TrueUserProfile where
  InsulinSensitivity : Fin 48 → ℝ
  FoodSensitivity : Fin 48 → ℝ
  FoodTa : Fin 48 → ℝ
  InsulinTa : Fin 48 → ℝ
  LiverHourlyGlucose : Fin 48 → ℝ

namespace TrueUserProfile

/-- Model of `TrueUserProfile.getBin(time_ut) = int(time.localtime(time_ut).tm_hour / 0.5)`. -/
def getBin (t : ℤ) : ℕ := Nat.floor ((tmHour t : ℚ) / (1 / 2))

theorem getBin_eq (t : ℤ) : getBin t = 2 * tmHour t := by
  unfold getBin
  have h : ((tmHour t : ℚ)) / (1 / 2) = ((2 * tmHour t : ℕ) : ℚ) := by
    push_cast
    ring
  rw [h, Nat.floor_natCast]

theorem getBin_lt (t : ℤ) : getBin t < 48 := by
  rw [getBin_eq]
  have := tmHour_lt_24 t
  omega

def getInsulinSensitivity (p : TrueUserProfile) (t : ℤ) : ℝ :=
  p.InsulinSensitivity ⟨getBin t, getBin_lt t⟩

def getFoodSensitivity (p : TrueUserProfile) (t : ℤ) : ℝ :=
  p.FoodSensitivity ⟨getBin t, getBin_lt t⟩

def getInsulinTa (p : TrueUserProfile) (t : ℤ) : ℝ :=
  p.InsulinTa ⟨getBin t, getBin_lt t⟩

def getFoodTa (p : TrueUserProfile) (t : ℤ) : ℝ :=
  p.FoodTa ⟨getBin t, getBin_lt t⟩

def getLiverHourlyGlucose (p : TrueUserProfile) (t : ℤ) : ℝ :=
  p.LiverHourlyGlucose ⟨getBin t, getBin_lt t⟩

end TrueUserProfile

/-! ### Generic effect-event engine (BGBaseClasses.py lines 114-161) -/

/-- Which profile decay constant `getIntegralBase` should consult
(the `whichTa` string argument: `'getInsulinTa'` or `'getFoodTa'`). -/
inductive TaKind
  | insulin
  | food

def TaKind.resolve : TaKind → TrueUserProfile → ℤ → ℝ
  | .insulin, p, t => p.getInsulinTa t
  | .food, p, t => p.getFoodTa t

/-- Model of `BGActionBase.getTa`: the per-instance `Ta` attribute when present (`hasattr`),
otherwise the profile's kind-specific constant at the event start. -/
noncomputable def getTa (TaOverride : Option ℝ) (p : TrueUserProfile) (whichTa : TaKind)
    (iov_0_utc : ℤ) : ℝ :=
  match TaOverride with
  | some ta => ta
  | none => whichTa.resolve p iov_0_utc

/-- Model of `BGActionBase.getIntegralBase(time_start, time_end, settings, whichTa)`.
`magnitude` stands for the virtual `getMagnitudeOfBGEffect(settings)` of the
derived class. -/
noncomputable def getIntegralBase (iov_0_utc : ℤ) (TaOverride : Option ℝ)
    (magnitude : TrueUserProfile → ℝ) (time_start time_end : ℤ)
    (settings : TrueUserProfile) (whichTa : TaKind) : ℝ :=
  if time_end < iov_0_utc then 0
  else
    let time_hr_start : ℝ := ((time_start - iov_0_utc : ℤ) : ℝ) / 3600
    let time_hr_end : ℝ := ((time_end - iov_0_utc : ℤ) : ℝ) / 3600
    let Ta := getTa TaOverride settings whichTa iov_0_utc
    (InsulinActionCurve time_hr_end Ta - InsulinActionCurve time_hr_start Ta)
      * magnitude settings

/-! ### InsulinBolus (BGActionClasses.py lines 40-70) -/

/-- Model of `InsulinBolus`: validity `[t, t + 6h]`, dose in insulin units.
`Ta` models the optional per-instance decay-constant attribute (unset by the
constructor, may be attached later by fitting code). -/
structure InsulinBolus where
  iov_0_utc : ℤ
  iov_1_utc : ℤ
  insulin : ℝ
  Ta : Option ℝ

def InsulinBolus.make (time_ut : ℤ) (insulin : ℝ) : InsulinBolus :=
  { iov_0_utc := time_ut, iov_1_utc := time_ut + 21600, insulin := insulin, Ta := none }

def InsulinBolus.getMagnitudeOfBGEffect (b : InsulinBolus) (settings : TrueUserProfile) : ℝ :=
  settings.getInsulinSensitivity b.iov_0_utc * b.insulin

noncomputable def InsulinBolus.getIntegral (b : InsulinBolus) (time_start time_end : ℤ)
    (settings : TrueUserProfile) : ℝ :=
  getIntegralBase b.iov_0_utc b.Ta b.getMagnitudeOfBGEffect time_start time_end
    settings .insulin

/-- Model of `BGActionBase.BGEffectRemaining` as inherited by `InsulinBolus`:
`getIntegral(t, t + 30 days)` (`timedelta(days=30).total_seconds() = 2592000`). -/
noncomputable def InsulinBolus.BGEffectRemaining (b : InsulinBolus) (time_ut : ℤ)
    (settings : TrueUserProfile) : ℝ :=
  b.getIntegral time_ut (time_ut + 2592000) settings

/-! ### Food (BGActionClasses.py lines 173-203) -/

/-- Model of `Food`: validity `[t, t + 6h]`, grams; `Ta` is the optional per-instance
decay-constant attribute. -/
structure Food where
  iov_0_utc : ℤ
  iov_1_utc : ℤ
  food : ℝ
  original_value : ℝ
  fattyMeal : Bool
  Ta : Option ℝ

def Food.make (iov_utc : ℤ) (food : ℝ) : Food :=
  { iov_0_utc := iov_utc, iov_1_utc := iov_utc + 21600, food := food,
    original_value := food, fattyMeal := false, Ta := none }

def Food.getMagnitudeOfBGEffect (f : Food) (settings : TrueUserProfile) : ℝ :=
  settings.getFoodSensitivity f.iov_0_utc * f.food

noncomputable def Food.getIntegral (f : Food) (time_start time_end : ℤ)
    (settings : TrueUserProfile) : ℝ :=
  getIntegralBase f.iov_0_utc f.Ta f.getMagnitudeOfBGEffect time_start time_end
    settings .food

noncomputable def Food.BGEffectRemaining (f : Food) (time_ut : ℤ)
    (settings : TrueUserProfile) : ℝ :=
  f.getIntegral time_ut (time_ut + 2592000) settings

/-! ### LiverFattyGlucose (BGActionClasses.py lines 483-534) -/

/-- Model of `LiverFattyGlucose(time_start, time_end, BGEffect, Ta_tempBasal, fractionOfBasal)`:
validity end is `time_end + 6h`; own decay constant `Ta = Ta_tempBasal * 1.4`. -/
structure LiverFattyGlucose where
  iov_0_utc : ℤ
  iov_1_utc : ℤ
  BGEffect : ℝ
  original_value : ℝ
  fractionOfBasal : ℝ
  Ta_tempBasal : ℝ
  Ta : ℝ

noncomputable def LiverFattyGlucose.make (time_start time_end : ℤ)
    (BGEffect Ta_tempBasal fractionOfBasal : ℝ) : LiverFattyGlucose :=
  { iov_0_utc := time_start, iov_1_utc := time_end + 6 * 3600, BGEffect := BGEffect,
    original_value := BGEffect, fractionOfBasal := fractionOfBasal,
    Ta_tempBasal := Ta_tempBasal, Ta := Ta_tempBasal * 1.4 }

def LiverFattyGlucose.getMagnitudeOfBGEffect (g : LiverFattyGlucose)
    (_settings : TrueUserProfile) : ℝ :=
  g.BGEffect

/-- Note: `LiverFattyGlucose.getIntegral` calls the base integral with itself as the
settings object and `whichTa = 'getFattyGlucoseLocalTa'`; because the instance
always carries its own `Ta` attribute, `getTa` short-circuits to it, which the
`some g.Ta` override models. -/
noncomputable def LiverFattyGlucose.getIntegral (g : LiverFattyGlucose)
    (time_start time_end : ℤ) (settings : TrueUserProfile) : ℝ :=
  getIntegralBase g.iov_0_utc (some g.Ta) g.getMagnitudeOfBGEffect time_start time_end
    settings .insulin

noncomputable def LiverFattyGlucose.BGEffectRemaining (g : LiverFattyGlucose)
    (time_ut : ℤ) (settings : TrueUserProfile) : ℝ :=
  g.getIntegral time_ut (time_ut + 2592000) settings

/-! ### TempBasal / Suspend and the event container
(BGActionClasses.py lines 444-480).

The container holds heterogeneous events; `BasalInsulin.__init__` only inspects
the `IsTempBasal()` / `IsSuspend()` class-name predicates, the validity bounds,
and `basalFactor`, and appends `LiverFattyGlucose` events at the end, so those
are the cases the embedding carries (`other` stands for every remaining kind). -/

inductive ContEvent
  | tempBasal (iov_0_utc iov_1_utc : ℤ) (basalFactor : ℝ)
  | suspend (iov_0_utc iov_1_utc : ℤ) (basalFactor : ℝ)
  | fatty (g : LiverFattyGlucose)
  | other (iov_0_utc iov_1_utc : ℤ)

/-- Model of `TempBasal.__init__(iov_0_utc, iov_1_utc, basalFactor)`. -/
def TempBasal.make (iov_0_utc iov_1_utc : ℤ) (basalFactor : ℝ) : ContEvent :=
  .tempBasal iov_0_utc iov_1_utc basalFactor

/-- Model of `Suspend.__init__(iov_0_utc, iov_1_utc)`, which fixes `basalFactor = 0`. -/
def Suspend.make (iov_0_utc iov_1_utc : ℤ) : ContEvent :=
  .suspend iov_0_utc iov_1_utc 0

/-! ### BasalInsulin construction (BGActionClasses.py lines 337-441) -/

/-- Model of `BasalInsulin.getBin(time_ut) = int(2 * (tm_hour + tm_min / 60))`. -/
def basalBin (t : ℤ) : ℕ := Nat.floor (2 * ((tmHour t : ℚ) + (tmMin t : ℚ) / 60))

theorem basalBin_eq (t : ℤ) : basalBin t = 2 * tmHour t + tmMin t / 30 := by
  unfold basalBin
  have h : 2 * ((tmHour t : ℚ) + (tmMin t : ℚ) / 60)
      = (tmMin t : ℚ) / ((30 : ℕ) : ℚ) + ((2 * tmHour t : ℕ) : ℚ) := by
    push_cast
    ring
  rw [h, Nat.floor_add_nat (by positivity), Nat.floor_div_nat, Nat.floor_natCast,
    Nat.add_comm]

theorem basalBin_lt (t : ℤ) : basalBin t < 48 := by
  rw [basalBin_eq]
  have h1 := tmHour_lt_24 t
  have h2 := tmMin_lt_60 t
  omega

/-- One entry of the `fattyEvents` dictionary built during construction. -/
structure FattyInfo where
  iov_0_utc : ℤ
  iov_1_utc : ℤ
  BGEffect : ℝ
  Ta_tempBasal : ℝ
  fractionOfBasal : ℝ

/-- One `bolusSlice` contribution of a step-covering temp basal with
multiplier above 1: the override's bounds, its factor, and the slice value. -/
structure Contrib where
  key : ℤ
  iovEnd : ℤ
  factor : ℝ
  slice : ℝ

/-- The dictionary entry created the first time an override start is seen
(records the override's bounds, `Ta_tempBasal = duration/3600` and
`fractionOfBasal = factor - 1`). -/
noncomputable def Contrib.initialInfo (c : Contrib) : FattyInfo :=
  { iov_0_utc := c.key
    iov_1_utc := c.iovEnd
    BGEffect := c.slice
    Ta_tempBasal := ((c.iovEnd - c.key : ℤ) : ℝ) / 3600
    fractionOfBasal := c.factor - 1 }

/-- The `fattyEvents[c.iov_0_utc]` dictionary update: create the entry on first
sight, otherwise add the slice into the existing entry's `BGEffect`. -/
noncomputable def applyContrib (fe : List (ℤ × FattyInfo)) (c : Contrib) :
    List (ℤ × FattyInfo) :=
  if c.key ∈ fe.map Prod.fst then
    fe.map (fun p =>
      if p.1 = c.key then (p.1, { p.2 with BGEffect := p.2.BGEffect + c.slice }) else p)
  else
    fe ++ [(c.key, c.initialInfo)]

/-- The first `for c in containers` scan of a construction step: every
`TempBasal` whose interval contains the step reassigns `basalFactor`, and if
its factor exceeds 1 it accumulates `-insulin_sensi * bolus_val * (factor-1)`
into the `fattyEvents` dictionary. -/
noncomputable def stepScan (t : ℤ) (insulin_sensi bolus_val : ℝ) :
    List ContEvent → List (ℤ × FattyInfo) → ℝ → List (ℤ × FattyInfo) × ℝ
  | [], fe, basalFactor => (fe, basalFactor)
  | .tempBasal a b f :: cs, fe, basalFactor =>
    if a > t ∨ t > b then stepScan t insulin_sensi bolus_val cs fe basalFactor
    else
      stepScan t insulin_sensi bolus_val cs
        (if f > 1 then
          applyContrib fe ⟨a, b, f, -insulin_sensi * bolus_val * (f - 1)⟩
        else fe) f
  | _ :: cs, fe, basalFactor => stepScan t insulin_sensi bolus_val cs fe basalFactor

/-- The second `for c in containers` scan: every `Suspend` strictly containing
the step reassigns `basalFactor` (to its stored factor, 0 by construction). -/
noncomputable def suspendScan (t : ℤ) : List ContEvent → ℝ → ℝ
  | [], basalFactor => basalFactor
  | .suspend a b f :: cs, basalFactor =>
    suspendScan t cs (if a < t ∧ t < b then f else basalFactor)
  | _ :: cs, basalFactor => suspendScan t cs basalFactor

/-- The `bolus_val` before rate modulation: `BasalRates[getBin(t)] * time_step_hr`
with `time_step_hr = 0.1`. -/
noncomputable def basalNominal (rates : Fin 48 → ℝ) (t : ℤ) : ℝ :=
  rates ⟨basalBin t, basalBin_lt t⟩ * (1 / 10)

/-- One iteration of the construction's `while` loop: returns the updated
`fattyEvents` dictionary and the effective `basalFactor` for the step. -/
noncomputable def basalStep (rates sensis : Fin 48 → ℝ) (containers : List ContEvent)
    (t : ℤ) (fe : List (ℤ × FattyInfo)) : List (ℤ × FattyInfo) × ℝ :=
  let insulin_sensi := sensis ⟨basalBin t, basalBin_lt t⟩
  let scanned := stepScan t insulin_sensi (basalNominal rates t) containers fe 1
  (scanned.1, suspendScan t containers scanned.2)

/-- The step times visited by the `while time_ut < iov_1_utc` loop
(increment `time_step_hr * 3600 = 360` seconds). -/
def basalSteps (time_ut iov_1_utc : ℤ) : List ℤ :=
  if time_ut < iov_1_utc then time_ut :: basalSteps (time_ut + 360) iov_1_utc else []
termination_by (iov_1_utc - time_ut).toNat
decreasing_by omega

/-- Running the construction loop over the step times: emits one mini-bolus
`InsulinBolus(t, bolus_val * basalFactor)` per step and threads the
`fattyEvents` dictionary through. -/
noncomputable def runBasal (rates sensis : Fin 48 → ℝ) (containers : List ContEvent) :
    List ℤ → List (ℤ × FattyInfo) → List InsulinBolus × List (ℤ × FattyInfo)
  | [], fe => ([], fe)
  | t :: ts, fe =>
    let stepped := basalStep rates sensis containers t fe
    let rest := runBasal rates sensis containers ts stepped.1
    (InsulinBolus.make t (basalNominal rates t * stepped.2) :: rest.1, rest.2)

/-- Model of `BasalInsulin`: the generated mini-bolus sequence. -/
structure BasalInsulin where
  iov_0_utc : ℤ
  iov_1_utc : ℤ
  basalBoluses : List InsulinBolus

/-- Hour alignment of the loop start:
`iov_0_utc - 60 * tm_min - tm_sec`. -/
def hourAlign (t : ℤ) : ℤ := t - 60 * (tmMin t : ℤ) - (tmSec t : ℤ)

/-- Model of `BasalInsulin.__init__`: steps from the hour-aligned start to `iov_1_utc`
at a 6-minute cadence, then builds one `LiverFattyGlucose` per `fattyEvents`
entry and appends them to the shared container.  Returns the constructed
event together with the mutated container. -/
noncomputable def BasalInsulin.make (iov_0_utc iov_1_utc : ℤ) (rates sensis : Fin 48 → ℝ)
    (containers : List ContEvent) : BasalInsulin × List ContEvent :=
  let run := runBasal rates sensis containers (basalSteps (hourAlign iov_0_utc) iov_1_utc) []
  (⟨iov_0_utc, iov_1_utc, run.1⟩,
    containers ++ run.2.map (fun p =>
      ContEvent.fatty (LiverFattyGlucose.make p.2.iov_0_utc p.2.iov_1_utc p.2.BGEffect
        p.2.Ta_tempBasal p.2.fractionOfBasal)))

noncomputable def BasalInsulin.getIntegral (B : BasalInsulin) (time_start time_end : ℤ)
    (settings : TrueUserProfile) : ℝ :=
  (B.basalBoluses.map (fun c => c.getIntegral time_start time_end settings)).sum

/-- Note: `BasalInsulin.BGEffectRemaining` is overridden to return 0. -/
noncomputable def BasalInsulin.BGEffectRemaining (_B : BasalInsulin) (_time_ut : ℤ)
    (_settings : TrueUserProfile) : ℝ :=
  0

/-! ### ExerciseEffect (BGActionClasses.py lines 568-645) -/

/-- The insulin-bearing events `ExerciseEffect.LoadContainers` records
(`IsBasalInsulin()` or `IsBolus()`). -/
inductive InsEvent
  | bolus (b : InsulinBolus)
  | basal (B : BasalInsulin)

def InsEvent.iov_0_utc : InsEvent → ℤ
  | .bolus b => b.iov_0_utc
  | .basal B => B.iov_0_utc

def InsEvent.iov_1_utc : InsEvent → ℤ
  | .bolus b => b.iov_1_utc
  | .basal B => B.iov_1_utc

noncomputable def InsEvent.getIntegral (c : InsEvent) (time_start time_end : ℤ)
    (settings : TrueUserProfile) : ℝ :=
  match c with
  | .bolus b => b.getIntegral time_start time_end settings
  | .basal B => B.getIntegral time_start time_end settings

structure ExerciseEffect where
  iov_0_utc : ℤ
  iov_1_utc : ℤ
  factor : ℝ
  affectedEvents : List InsEvent

/-- Model of `ExerciseEffect.__init__` + `LoadContainers`: record the insulin-bearing
container events overlapping the exercise interval. -/
def ExerciseEffect.make (iov_0_utc iov_1_utc : ℤ) (factor : ℝ)
    (containers : List InsEvent) : ExerciseEffect :=
  { iov_0_utc := iov_0_utc, iov_1_utc := iov_1_utc, factor := factor,
    affectedEvents := containers.filter
      (fun c => ¬ (c.iov_0_utc > iov_1_utc) ∧ ¬ (c.iov_1_utc < iov_0_utc)) }

/-- Model of `ExerciseEffect.getIntegral`: 0 when the query window leaves the exercise
interval, else `factor ×` the sum of the recorded events' integrals. -/
noncomputable def ExerciseEffect.getIntegral (e : ExerciseEffect)
    (time_start time_end : ℤ) (settings : TrueUserProfile) : ℝ :=
  if e.iov_0_utc > time_start ∨ time_end > e.iov_1_utc then 0
  else
    (e.affectedEvents.map (fun c => c.getIntegral time_start time_end settings)).sum
      * e.factor

/-- Note: `ExerciseEffect.BGEffectRemaining` is overridden to return 0. -/
noncomputable def ExerciseEffect.BGEffectRemaining (_e : ExerciseEffect)
    (_time_ut : ℤ) (_settings : TrueUserProfile) : ℝ :=
  0

/-! ### SquareWaveBolus / DualWaveBolus (BGActionClasses.py lines 92-170) -/

/-- The mini-bolus step times of the `SquareWaveBolus` constructor's
`while time_it < time_ut + duration_hr*3600` loop (6-minute cadence; the
bound is real-valued because `duration_hr` is a float). -/
def squareSteps (time_it : ℤ) (bound : ℚ) : List ℤ :=
  if h : (time_it : ℚ) < bound then time_it :: squareSteps (time_it + 360) bound else []
termination_by (⌈bound⌉ - time_it).toNat
decreasing_by
  have h2 : time_it < ⌈bound⌉ := Int.lt_ceil.mpr h
  omega

/-- Model of `SquareWaveBolus`: total dose spread over `duration_hr` as
6-minute mini-boluses of `insulin * 0.1 / duration_hr` each
(`iov_1_utc = time_ut + duration_hr + 6h`, the constructor's literal sum). -/
structure SquareWaveBolus where
  iov_0_utc : ℤ
  iov_1_utc : ℚ
  insulin : ℝ
  duration_hr : ℚ
  miniBoluses : List InsulinBolus

noncomputable def SquareWaveBolus.make (time_ut : ℤ) (duration_hr : ℚ) (insulin : ℝ) :
    SquareWaveBolus :=
  { iov_0_utc := time_ut
    iov_1_utc := (time_ut : ℚ) + duration_hr + 21600
    insulin := insulin
    duration_hr := duration_hr
    miniBoluses := (squareSteps time_ut ((time_ut : ℚ) + duration_hr * 3600)).map
      (fun t => InsulinBolus.make t (insulin * (1 / 10) / (duration_hr : ℝ))) }

/-- Model of `SquareWaveBolus.getIntegral`: the sum over the mini-boluses. -/
noncomputable def SquareWaveBolus.getIntegral (sq : SquareWaveBolus)
    (time_start time_end : ℤ) (settings : TrueUserProfile) : ℝ :=
  (sq.miniBoluses.map (fun c => c.getIntegral time_start time_end settings)).sum

/-- Model of `DualWaveBolus`: one square-wave part plus one instant bolus. -/
structure DualWaveBolus where
  iov_0_utc : ℤ
  iov_1_utc : ℚ
  insulin_square : ℝ
  insulin_inst : ℝ
  duration_hr : ℚ
  square : SquareWaveBolus
  inst : InsulinBolus

noncomputable def DualWaveBolus.make (time_ut : ℤ) (duration_hr : ℚ)
    (insulin_square insulin_inst : ℝ) : DualWaveBolus :=
  { iov_0_utc := time_ut
    iov_1_utc := (time_ut : ℚ) + duration_hr + 21600
    insulin_square := insulin_square
    insulin_inst := insulin_inst
    duration_hr := duration_hr
    square := SquareWaveBolus.make time_ut duration_hr insulin_square
    inst := InsulinBolus.make time_ut insulin_inst }

/-- Model of `DualWaveBolus.getIntegral`: the sum over `[square, inst]`. -/
noncomputable def DualWaveBolus.getIntegral (d : DualWaveBolus)
    (time_start time_end : ℤ) (settings : TrueUserProfile) : ℝ :=
  d.square.getIntegral time_start time_end settings
    + d.inst.getIntegral time_start time_end settings

/-! ### LiverBasalGlucose (BGActionClasses.py lines 239-334)

The instance carries no varying state: the constructor fixes
`binWidth_hr = 0.25` (96 bins) and `smear_hr_pm = 1`, and
`LiverHourlyGlucoseFine` is recomputed from the settings on every call, so
the methods are modelled as functions of the settings alone. -/

/-- Model of `LiverBasalGlucose.getBin(time_ut) =
int((tm_hour + tm_min/60) / 0.25)` (quarter-hour-of-day bin). -/
def liverBin (t : ℤ) : ℕ := Nat.floor (((tmHour t : ℚ) + (tmMin t : ℚ) / 60) / (1 / 4))

theorem liverBin_eq (t : ℤ) : liverBin t = 4 * tmHour t + tmMin t / 15 := by
  unfold liverBin
  have h : ((tmHour t : ℚ) + (tmMin t : ℚ) / 60) / (1 / 4)
      = (tmMin t : ℚ) / ((15 : ℕ) : ℚ) + ((4 * tmHour t : ℕ) : ℚ) := by
    push_cast
    ring
  rw [h, Nat.floor_add_nat (by positivity), Nat.floor_div_nat, Nat.floor_natCast,
    Nat.add_comm]

theorem emod96_toNat_lt (x : ℤ) : (x % 96).toNat < 96 := by omega

/-- The "lengthened" list of `getSmearedList`: each of the profile's 48
half-hour values repeated `int(0.5 / 0.25) = 2` times (96 entries). -/
def liverLengthened (p : TrueUserProfile) (i : ℕ) (h : i < 96) : ℝ :=
  p.LiverHourlyGlucose ⟨i / 2, by omega⟩

/-- Model of `LiverBasalGlucose.getSmearedList` at index `i`: the moving
average over `smear_hr_pm / binWidth_hr = 4` bins each side (9 values) of
the lengthened list, with wrap-around indexing `j % 96`. -/
noncomputable def getSmearedList (p : TrueUserProfile) (i : Fin 96) : ℝ :=
  (((List.range 9).map (fun d =>
    liverLengthened p ((((i : ℤ) - 4 + d) % 96).toNat) (emod96_toNat_lt _))).sum) / 9

/-- Model of `LiverBasalGlucose.getIntegral`'s `while` loop, with
`low_edge = max(time_start, time_start_day + liver_bin*900)` and
`up_edge = min(time_end, time_start_day + (liver_bin+1)*900)` inlined:
stop at the guard `it_time ≤ time_end + 900` or at the first
`up_edge < low_edge`, else add `(up_edge − low_edge)/3600` hours times the
fine rate of bin `liver_bin % 96` and continue. -/
noncomputable def liverLoop (p : TrueUserProfile) (time_start time_end time_start_day : ℤ)
    (it_time liver_bin : ℤ) : ℝ :=
  if it_time ≤ time_end + 900 then
    if min time_end (time_start_day + (liver_bin + 1) * 900)
        < max time_start (time_start_day + liver_bin * 900) then 0
    else
      ((min time_end (time_start_day + (liver_bin + 1) * 900)
          - max time_start (time_start_day + liver_bin * 900) : ℤ) : ℝ) / 3600
          * getSmearedList p ⟨(liver_bin % 96).toNat, emod96_toNat_lt liver_bin⟩
        + liverLoop p time_start time_end time_start_day (it_time + 900) (liver_bin + 1)
  else 0
termination_by (time_end + 900 - it_time + 1).toNat
decreasing_by omega

/-- Model of `LiverBasalGlucose.getIntegral(time_start, time_end, settings)`:
anchor the grid at `time_start − tm_sec − 60·tm_min − 3600·tm_hour` (the
start of `time_start`'s day) and walk bins from `getBin(time_start)`. -/
noncomputable def LiverBasalGlucose.getIntegral (time_start time_end : ℤ)
    (settings : TrueUserProfile) : ℝ :=
  liverLoop settings time_start time_end
    (time_start - (tmSec time_start : ℤ) - 60 * (tmMin time_start : ℤ)
      - 3600 * (tmHour time_start : ℤ))
    time_start (liverBin time_start)

/-- Note: `LiverBasalGlucose.BGEffectRemaining` is overridden to return 0. -/
noncomputable def LiverBasalGlucose.BGEffectRemaining (_time_ut : ℤ)
    (_settings : TrueUserProfile) : ℝ :=
  0

/-- The start-of-day anchor used by the bin walk strips exactly the
seconds-of-day. -/
theorem dayStart_eq (t : ℤ) :
    t - (tmSec t : ℤ) - 60 * (tmMin t : ℤ) - 3600 * (tmHour t : ℤ) = t - t % 86400 := by
  unfold tmSec tmMin tmHour
  omega

theorem dayStart_mod (t : ℤ) :
    (t - (tmSec t : ℤ) - 60 * (tmMin t : ℤ) - 3600 * (tmHour t : ℤ)) % 86400 = 0 := by
  rw [dayStart_eq]
  omega

/-- The starting bin places the walk's first cell on the global 900-second
grid cell containing `t` (seconds never push `getBin` past a quarter-hour
boundary because minute offsets within a cell are at most 840 s). -/
theorem loopBin_eq (t : ℤ) : 900 * (liverBin t : ℤ) = t % 86400 - t % 900 := by
  rw [liverBin_eq]
  unfold tmHour tmMin
  push_cast
  omega

theorem dayStart_add_bin (t : ℤ) :
    (t - (tmSec t : ℤ) - 60 * (tmMin t : ℤ) - 3600 * (tmHour t : ℤ))
      + 900 * (liverBin t : ℤ) = 900 * (t / 900) := by
  rw [dayStart_eq]
  have h := loopBin_eq t
  omega

/-- The fine smeared rate the walk charges to the absolute 900-second cell
`q` (the cell's quarter-of-day index, wrapped at 96). -/
noncomputable def liverCellRate (p : TrueUserProfile) (q : ℤ) : ℝ :=
  getSmearedList p ⟨(q % 96).toNat, emod96_toNat_lt q⟩

/-- Reference form of the bin walk on the absolute 900-second grid: sum the
cells `q, q+1, …` clipped to `[time_start, time_end]` while
`900·q ≤ time_end`. -/
noncomputable def liverCellSum (p : TrueUserProfile) (time_start time_end q : ℤ) : ℝ :=
  if 900 * q ≤ time_end then
    ((min time_end (900 * (q + 1)) - max time_start (900 * q) : ℤ) : ℝ) / 3600
        * liverCellRate p q
      + liverCellSum p time_start time_end (q + 1)
  else 0
termination_by (time_end - 900 * q + 900).toNat
decreasing_by omega

theorem liverCellSum_stop {p : TrueUserProfile} {time_start time_end q : ℤ}
    (h : ¬ 900 * q ≤ time_end) : liverCellSum p time_start time_end q = 0 := by
  rw [liverCellSum.eq_def, if_neg h]

theorem liverCellSum_go {p : TrueUserProfile} {time_start time_end q : ℤ}
    (h : 900 * q ≤ time_end) :
    liverCellSum p time_start time_end q
      = ((min time_end (900 * (q + 1)) - max time_start (900 * q) : ℤ) : ℝ) / 3600
          * liverCellRate p q
        + liverCellSum p time_start time_end (q + 1) := by
  rw [liverCellSum.eq_def, if_pos h]

theorem liverLoop_stop {p : TrueUserProfile} {ts te day it b : ℤ}
    (h : ¬ it ≤ te + 900) : liverLoop p ts te day it b = 0 := by
  rw [liverLoop.eq_def, if_neg h]

theorem liverLoop_break {p : TrueUserProfile} {ts te day it b : ℤ}
    (hg : it ≤ te + 900)
    (hbr : min te (day + (b + 1) * 900) < max ts (day + b * 900)) :
    liverLoop p ts te day it b = 0 := by
  rw [liverLoop.eq_def, if_pos hg, if_pos hbr]

theorem liverLoop_go {p : TrueUserProfile} {ts te day it b : ℤ}
    (hg : it ≤ te + 900)
    (hbr : ¬ min te (day + (b + 1) * 900) < max ts (day + b * 900)) :
    liverLoop p ts te day it b
      = ((min te (day + (b + 1) * 900) - max ts (day + b * 900) : ℤ) : ℝ) / 3600
          * getSmearedList p ⟨(b % 96).toNat, emod96_toNat_lt b⟩
        + liverLoop p ts te day (it + 900) (b + 1) := by
  rw [liverLoop.eq_def, if_pos hg, if_neg hbr]

/-- The loop visiting cell `q` of the absolute grid (invariants: the anchor
`day` is a whole number of days, `day + 900·b = 900·q`, and `q` is at or
past the start cell) computes the grid reference sum from `q`. -/
theorem liverLoop_eq_cellSum_aux (p : TrueUserProfile) (t0 t1 day : ℤ)
    (hday : day % 86400 = 0) (ht01 : t0 ≤ t1) :
    ∀ (n : ℕ) (q b : ℤ), t0 / 900 ≤ q → day + 900 * b = 900 * q →
      (t1 + 900 - 900 * q).toNat ≤ n →
      liverLoop p t0 t1 day (t0 + 900 * (q - t0 / 900)) b
        = liverCellSum p t0 t1 q := by
  intro n
  induction n with
  | zero =>
    intro q b hq hb hn
    have hcell : ¬ 900 * q ≤ t1 := by omega
    rw [liverCellSum_stop hcell]
    by_cases hg : t0 + 900 * (q - t0 / 900) ≤ t1 + 900
    · apply liverLoop_break hg
      have e1 : day + b * 900 = 900 * q := by omega
      have e2 : day + (b + 1) * 900 = 900 * (q + 1) := by omega
      rw [e1, e2]
      omega
    · exact liverLoop_stop hg
  | succ n ih =>
    intro q b hq hb hn
    have e1 : day + b * 900 = 900 * q := by omega
    have e2 : day + (b + 1) * 900 = 900 * (q + 1) := by omega
    by_cases hcell : 900 * q ≤ t1
    · have hg : t0 + 900 * (q - t0 / 900) ≤ t1 + 900 := by omega
      have hbr : ¬ min t1 (day + (b + 1) * 900) < max t0 (day + b * 900) := by
        rw [e1, e2]
        omega
      rw [liverLoop_go hg hbr, liverCellSum_go hcell, e1, e2]
      have hval : (b % 96).toNat = (q % 96).toNat := by omega
      have hfin : (⟨(b % 96).toNat, emod96_toNat_lt b⟩ : Fin 96)
          = ⟨(q % 96).toNat, emod96_toNat_lt q⟩ := Fin.ext hval
      rw [hfin]
      have hit : t0 + 900 * (q - t0 / 900) + 900 = t0 + 900 * ((q + 1) - t0 / 900) := by
        ring
      rw [hit, ih (q + 1) (b + 1) (by omega) (by omega) (by omega)]
      rfl
    · rw [liverCellSum_stop hcell]
      by_cases hg : t0 + 900 * (q - t0 / 900) ≤ t1 + 900
      · apply liverLoop_break hg
        rw [e1, e2]
        omega
      · exact liverLoop_stop hg

/-- The bin walk equals the absolute-grid reference sum started at
`time_start`'s cell. -/
theorem liverIntegral_eq_cellSum (p : TrueUserProfile) (t0 t1 : ℤ) (h : t0 ≤ t1) :
    LiverBasalGlucose.getIntegral t0 t1 p = liverCellSum p t0 t1 (t0 / 900) := by
  unfold LiverBasalGlucose.getIntegral
  have hres := liverLoop_eq_cellSum_aux p t0 t1
    (t0 - (tmSec t0 : ℤ) - 60 * (tmMin t0 : ℤ) - 3600 * (tmHour t0 : ℤ))
    (dayStart_mod t0) h ((t1 + 900 - 900 * (t0 / 900)).toNat) (t0 / 900)
    (liverBin t0 : ℤ) le_rfl (dayStart_add_bin t0) le_rfl
  have hit0 : t0 + 900 * (t0 / 900 - t0 / 900) = t0 := by ring
  rw [hit0] at hres
  exact hres

/-- Above the split point both restrictions of the reference sum agree. -/
theorem liverCellSum_shift (p : TrueUserProfile) (t0 t1 t2 : ℤ) (h01 : t0 ≤ t1) :
    ∀ (n : ℕ) (q : ℤ), t1 ≤ 900 * q → (t2 + 900 - 900 * q).toNat ≤ n →
      liverCellSum p t0 t2 q = liverCellSum p t1 t2 q := by
  intro n
  induction n with
  | zero =>
    intro q hq hn
    have hcell : ¬ 900 * q ≤ t2 := by omega
    rw [liverCellSum_stop hcell, liverCellSum_stop hcell]
  | succ n ih =>
    intro q hq hn
    by_cases hcell : 900 * q ≤ t2
    · rw [liverCellSum_go hcell, liverCellSum_go hcell]
      have hmax : max t0 (900 * q) = max t1 (900 * q) := by omega
      rw [hmax, ih (q + 1) (by omega) (by omega)]
    · rw [liverCellSum_stop hcell, liverCellSum_stop hcell]

/-- Splitting the reference sum exactly at the cell containing the
intermediate time. -/
theorem liverCellSum_split_base (p : TrueUserProfile) (t0 t1 t2 : ℤ)
    (h01 : t0 ≤ t1) (h12 : t1 ≤ t2) :
    liverCellSum p t0 t2 (t1 / 900)
      = liverCellSum p t0 t1 (t1 / 900) + liverCellSum p t1 t2 (t1 / 900) := by
  have hcell1 : 900 * (t1 / 900) ≤ t1 := by omega
  have hcell2 : 900 * (t1 / 900) ≤ t2 := by omega
  have e02 : liverCellSum p t0 t2 (t1 / 900)
      = ((min t2 (900 * (t1 / 900 + 1)) - max t0 (900 * (t1 / 900)) : ℤ) : ℝ) / 3600
          * liverCellRate p (t1 / 900)
        + liverCellSum p t0 t2 (t1 / 900 + 1) := liverCellSum_go hcell2
  have e01 : liverCellSum p t0 t1 (t1 / 900)
      = ((min t1 (900 * (t1 / 900 + 1)) - max t0 (900 * (t1 / 900)) : ℤ) : ℝ) / 3600
          * liverCellRate p (t1 / 900)
        + liverCellSum p t0 t1 (t1 / 900 + 1) := liverCellSum_go hcell1
  have e12 : liverCellSum p t1 t2 (t1 / 900)
      = ((min t2 (900 * (t1 / 900 + 1)) - max t1 (900 * (t1 / 900)) : ℤ) : ℝ) / 3600
          * liverCellRate p (t1 / 900)
        + liverCellSum p t1 t2 (t1 / 900 + 1) := liverCellSum_go hcell2
  have hstop : liverCellSum p t0 t1 (t1 / 900 + 1) = 0 :=
    liverCellSum_stop (by omega)
  have hshift : liverCellSum p t0 t2 (t1 / 900 + 1)
      = liverCellSum p t1 t2 (t1 / 900 + 1) :=
    liverCellSum_shift p t0 t1 t2 h01 ((t2 + 900 - 900 * (t1 / 900 + 1)).toNat)
      (t1 / 900 + 1) (by omega) le_rfl
  have hm1 : min t1 (900 * (t1 / 900 + 1)) = t1 := by omega
  have hm2 : max t1 (900 * (t1 / 900)) = t1 := by omega
  rw [e02, e01, e12, hstop, hshift, hm1, hm2]
  push_cast
  ring

/-- Splitting the reference sum at an intermediate time. -/
theorem liverCellSum_split (p : TrueUserProfile) (t0 t1 t2 : ℤ)
    (h01 : t0 ≤ t1) (h12 : t1 ≤ t2) :
    ∀ (n : ℕ) (q : ℤ), q ≤ t1 / 900 → (t1 / 900 - q).toNat ≤ n →
      liverCellSum p t0 t2 q
        = liverCellSum p t0 t1 q + liverCellSum p t1 t2 (t1 / 900) := by
  intro n
  induction n with
  | zero =>
    intro q hq hn
    have hq1 : q = t1 / 900 := by omega
    subst hq1
    exact liverCellSum_split_base p t0 t1 t2 h01 h12
  | succ n ih =>
    intro q hq hn
    by_cases hq1 : q = t1 / 900
    · subst hq1
      exact liverCellSum_split_base p t0 t1 t2 h01 h12
    · have hqlt : q < t1 / 900 := by omega
      have hcell1 : 900 * q ≤ t1 := by omega
      have hcell2 : 900 * q ≤ t2 := by omega
      have e2 : liverCellSum p t0 t2 q
          = ((min t2 (900 * (q + 1)) - max t0 (900 * q) : ℤ) : ℝ) / 3600
              * liverCellRate p q
            + liverCellSum p t0 t2 (q + 1) := liverCellSum_go hcell2
      have e1 : liverCellSum p t0 t1 q
          = ((min t1 (900 * (q + 1)) - max t0 (900 * q) : ℤ) : ℝ) / 3600
              * liverCellRate p q
            + liverCellSum p t0 t1 (q + 1) := liverCellSum_go hcell1
      have hmin : min t2 (900 * (q + 1)) = min t1 (900 * (q + 1)) := by omega
      rw [e2, e1, hmin, ih (q + 1) (by omega) (by omega)]
      ring

/-- Additivity of the liver bin-walk integral. -/
theorem liver_additive (p : TrueUserProfile) {t0 t1 t2 : ℤ}
    (h01 : t0 ≤ t1) (h12 : t1 ≤ t2) :
    LiverBasalGlucose.getIntegral t0 t2 p
      = LiverBasalGlucose.getIntegral t0 t1 p + LiverBasalGlucose.getIntegral t1 t2 p := by
  rw [liverIntegral_eq_cellSum p t0 t2 (le_trans h01 h12),
    liverIntegral_eq_cellSum p t0 t1 h01, liverIntegral_eq_cellSum p t1 t2 h12]
  exact liverCellSum_split p t0 t1 t2 h01 h12 ((t1 / 900 - t0 / 900).toNat) (t0 / 900)
    (Int.ediv_le_ediv (by norm_num) h01) le_rfl

/-! ### UserSetting snapshot selection and lookup (Settings.py lines 11-116)

A settings snapshot is modelled as its timestamp (already converted to UTC
seconds, the `time.mktime` of the snapshot's date string) paired with its
payload; `GetSettingAtTime`'s numpy array is modelled as the sorted list of
`(time_seconds, value)` pairs. -/

/-- The indexed `for i in range(len(...)-1)` loop of `getValidSnapshotAtTime`:
walks adjacent snapshot pairs, the `Bool` argument tracking `i == 0`. -/
def snapshotLoop {α : Type} (the_time : ℤ) : List (ℤ × α) → Bool → Option α
  | [], _ => none
  | [p], _ => some p.2
  | p :: q :: rest, isFirst =>
    if (isFirst ∧ the_time < p.1) ∨ (p.1 ≤ the_time ∧ the_time < q.1) then some p.2
    else snapshotLoop the_time (q :: rest) false

/-- Model of `UserSetting.getValidSnapshotAtTime(timestamp)`: return snapshot `i` when
`(i == 0 and t < iov_0) or (iov_0 <= t < iov_1)`, else fall through to the
last snapshot (`none` models the `IndexError` on an empty snapshot list). -/
def getValidSnapshotAtTime {α : Type} (settings_24h : List (ℤ × α)) (the_time : ℤ) :
    Option α :=
  snapshotLoop the_time settings_24h true

/-- Python list indexing `lst[i]` with negative-index wrap-around
(`lst[-k]` is `lst[len - k]`); `none` models `IndexError`. -/
def pyIndex {α : Type} (l : List α) (i : ℤ) : Option α :=
  if i < 0 then
    if (-i).toNat ≤ l.length then l.get? (l.length - (-i).toNat) else none
  else l.get? i.toNat

/-- Model of `UserSetting.GetSettingAtTime(settings, timeOfDay_hr)`: `none` models the
`AttributeError` raised on an empty settings array; otherwise
`index = np.searchsorted(time_seconds, timeOfDay_seconds, side='right')`
(the number of entries `≤` the key, for the sorted arrays the class maintains)
and the returned value is `settings['value'][index-1]` with Python indexing. -/
def GetSettingAtTime (settings : List (ℤ × ℝ)) (timeOfDay_hr : ℚ) : Option ℝ :=
  if settings.length = 0 then none
  else
    let timeOfDay_seconds : ℤ := ⌊timeOfDay_hr * 3600⌋
    let index : ℤ := ((settings.filter (fun p => p.1 ≤ timeOfDay_seconds)).length : ℤ)
    pyIndex (settings.map Prod.snd) (index - 1)

/-! ### Concrete profile used for witnesses and counterexamples -/

/-- A concrete profile: insulin sensitivity −50 mg/dL/u, insulin `Ta` 4 h,
food `Ta` 2 h (the class defaults for the decay constants). -/
def testProfile : TrueUserProfile :=
  { InsulinSensitivity := fun _ => -50
    FoodSensitivity := fun _ => 0
    FoodTa := fun _ => 2
    InsulinTa := fun _ => 4
    LiverHourlyGlucose := fun _ => 0 }

/-! ### C8: the action curve -/

/-- C8: for every `Ta > 0`, `curve(t,Ta)` is 0 for `t < 0`, is 0 at `t = 0`,
equals `1 − 0.05^((t/Ta)^2)` for `t ≥ 0`, is monotonically non-decreasing in
`t`, and tends to 1 as `t → ∞`. -/
theorem insulin_action_curve_properties (Ta : ℝ) (hTa : 0 < Ta) :
    (∀ t : ℝ, t < 0 → InsulinActionCurve t Ta = 0) ∧
    InsulinActionCurve 0 Ta = 0 ∧
    (∀ t : ℝ, 0 ≤ t →
      InsulinActionCurve t Ta = 1 - (0.05 : ℝ) ^ (((t / Ta) ^ (2 : ℕ) : ℝ))) ∧
    Monotone (fun t => InsulinActionCurve t Ta) ∧
    Filter.Tendsto (fun t => InsulinActionCurve t Ta) Filter.atTop (nhds 1) := by
  refine ⟨fun t ht => InsulinActionCurve_of_neg Ta ht, InsulinActionCurve_zero Ta,
    fun t ht => InsulinActionCurve_of_nonneg Ta ht, InsulinActionCurve_mono hTa,
    InsulinActionCurve_tendsto_one hTa⟩

/-- Witness for C8 at `Ta = 4`. -/
theorem insulin_action_curve_properties_witness :
    (0 : ℝ) < 4 ∧
    ((∀ t : ℝ, t < 0 → InsulinActionCurve t 4 = 0) ∧
      InsulinActionCurve 0 4 = 0 ∧
      (∀ t : ℝ, 0 ≤ t →
        InsulinActionCurve t 4 = 1 - (0.05 : ℝ) ^ (((t / 4) ^ (2 : ℕ) : ℝ))) ∧
      Monotone (fun t => InsulinActionCurve t 4) ∧
      Filter.Tendsto (fun t => InsulinActionCurve t 4) Filter.atTop (nhds 1)) :=
  ⟨by norm_num, insulin_action_curve_properties 4 (by norm_num)⟩

/-! ### C6: the base integral formula and decay-constant resolution -/

/-- C6: the value `getIntegralBase(t0,t1)` is 0 when `t1 < validityStart` and otherwise
`magnitude × (curve((t1−validityStart)/Ta) − curve((t0−validityStart)/Ta))`
where `Ta` is the per-instance override when present and otherwise the
profile's kind-specific constant looked up at `validityStart`. -/
theorem integral_formula_and_ta_resolution :
    (∀ (iov_0_utc : ℤ) (TaOverride : Option ℝ) (magnitude : TrueUserProfile → ℝ)
      (t0 t1 : ℤ) (p : TrueUserProfile) (k : TaKind),
      getIntegralBase iov_0_utc TaOverride magnitude t0 t1 p k =
        if t1 < iov_0_utc then 0
        else magnitude p *
          (InsulinActionCurve (((t1 - iov_0_utc : ℤ) : ℝ) / 3600)
              (TaOverride.getD (k.resolve p iov_0_utc))
            - InsulinActionCurve (((t0 - iov_0_utc : ℤ) : ℝ) / 3600)
              (TaOverride.getD (k.resolve p iov_0_utc)))) ∧
    (∀ (ta : ℝ) (p : TrueUserProfile) (k : TaKind) (iov_0_utc : ℤ),
      getTa (some ta) p k iov_0_utc = ta) ∧
    (∀ (p : TrueUserProfile) (k : TaKind) (iov_0_utc : ℤ),
      getTa none p k iov_0_utc = k.resolve p iov_0_utc) := by
  refine ⟨fun iov0 TaOpt mag t0 t1 p k => ?_, fun ta p k iov0 => rfl, fun p k iov0 => rfl⟩
  unfold getIntegralBase
  split
  · rfl
  · have hta : getTa TaOpt p k iov0 = TaOpt.getD (k.resolve p iov0) := by
      cases TaOpt <;> rfl
    simp only [hta]
    ring

/-! ### C4: remainingEffect vs integral over 30 days -/

/-- C4 (amended): the events inheriting the base implementation
(`InsulinBolus`, `Food`, `LiverFattyGlucose`) satisfy
`remainingEffect(t) = integral(t, t + 30 days)`, while `BasalInsulin`,
`LiverBasalGlucose` and `ExerciseEffect` override `BGEffectRemaining` to
return 0 (for `BasalInsulin` this differs from its 30-day integral: see the
counterexample). -/
theorem remainingEffect_base_vs_overrides :
    (∀ (b : InsulinBolus) (t : ℤ) (p : TrueUserProfile),
      b.BGEffectRemaining t p = b.getIntegral t (t + 2592000) p) ∧
    (∀ (f : Food) (t : ℤ) (p : TrueUserProfile),
      f.BGEffectRemaining t p = f.getIntegral t (t + 2592000) p) ∧
    (∀ (g : LiverFattyGlucose) (t : ℤ) (p : TrueUserProfile),
      g.BGEffectRemaining t p = g.getIntegral t (t + 2592000) p) ∧
    (∀ (B : BasalInsulin) (t : ℤ) (p : TrueUserProfile),
      B.BGEffectRemaining t p = 0) ∧
    (∀ (t : ℤ) (p : TrueUserProfile),
      LiverBasalGlucose.BGEffectRemaining t p = 0) ∧
    (∀ (e : ExerciseEffect) (t : ℤ) (p : TrueUserProfile),
      e.BGEffectRemaining t p = 0) :=
  ⟨fun _ _ _ => rfl, fun _ _ _ => rfl, fun _ _ _ => rfl, fun _ _ _ => rfl,
    fun _ _ => rfl, fun _ _ _ => rfl⟩

theorem basalSteps_of_lt {t iov1 : ℤ} (h : t < iov1) :
    basalSteps t iov1 = t :: basalSteps (t + 360) iov1 := by
  rw [basalSteps.eq_def]
  simp [h]

theorem basalSteps_of_ge {t iov1 : ℤ} (h : ¬ t < iov1) : basalSteps t iov1 = [] := by
  rw [basalSteps.eq_def]
  simp [h]

/-- C4 counterexample: a one-step `BasalInsulin` (rate 1 u/h, sensitivity −50)
has `BGEffectRemaining(0) = 0` while `integral(0, 0 + 30 days) ≠ 0`. -/
theorem remainingEffect_basal_counterexample :
    (BasalInsulin.make 0 360 (fun _ => 1) (fun _ => -50) []).1.BGEffectRemaining 0
        testProfile = 0 ∧
    (BasalInsulin.make 0 360 (fun _ => 1) (fun _ => -50) []).1.getIntegral 0 2592000
        testProfile ≠ 0 := by
  constructor
  · rfl
  · have h0 : hourAlign 0 = 0 := by decide
    have hsteps : basalSteps (hourAlign 0) 360 = [0] := by
      rw [h0, basalSteps_of_lt (by norm_num), basalSteps_of_ge (by norm_num)]
    have hbol : (BasalInsulin.make 0 360 (fun _ => 1) (fun _ => -50) []).1.basalBoluses
        = [InsulinBolus.make 0 ((1 : ℝ) * (1 / 10) * 1)] := by
      simp only [BasalInsulin.make, hsteps, runBasal, basalStep, stepScan, suspendScan,
        basalNominal]
    rw [BasalInsulin.getIntegral, hbol]
    simp only [List.map_cons, List.map_nil, List.sum_cons, List.sum_nil, add_zero]
    rw [InsulinBolus.getIntegral]
    simp only [getIntegralBase, InsulinBolus.make]
    rw [if_neg (by norm_num : ¬ (2592000 : ℤ) < 0)]
    simp only [InsulinBolus.getMagnitudeOfBGEffect, TrueUserProfile.getInsulinSensitivity,
      testProfile, getTa, TaKind.resolve, TrueUserProfile.getInsulinTa]
    have h1 : (((2592000 : ℤ) - 0 : ℤ) : ℝ) / 3600 = 720 := by norm_num
    have h2 : (((0 : ℤ) - 0 : ℤ) : ℝ) / 3600 = 0 := by norm_num
    rw [h1, h2, InsulinActionCurve_zero]
    have hpos : 0 < InsulinActionCurve 720 4 :=
      InsulinActionCurve_pos (by norm_num) (by norm_num)
    have hne : InsulinActionCurve 720 4 - 0 ≠ 0 := by linarith
    exact mul_ne_zero hne (by norm_num)

/-! ### C10: absolute-time profile lookups use the local hour only -/

theorem tmHour_congr {t1 t2 : ℤ} (h : t1 / 3600 = t2 / 3600) : tmHour t1 = tmHour t2 := by
  unfold tmHour
  omega

/-- C10: the bin `TrueUserProfile.getBin` on an absolute time doubles the local hour
(so odd half-hour bins are never selected), and all five absolute-time profile
accessors agree on any two instants of the same absolute hour. -/
theorem profile_absolute_lookup_hour_only :
    (∀ t : ℤ, TrueUserProfile.getBin t % 2 = 0) ∧
    (∀ (p : TrueUserProfile) (t1 t2 : ℤ), t1 / 3600 = t2 / 3600 →
      p.getInsulinSensitivity t1 = p.getInsulinSensitivity t2 ∧
      p.getFoodSensitivity t1 = p.getFoodSensitivity t2 ∧
      p.getInsulinTa t1 = p.getInsulinTa t2 ∧
      p.getFoodTa t1 = p.getFoodTa t2 ∧
      p.getLiverHourlyGlucose t1 = p.getLiverHourlyGlucose t2) := by
  constructor
  · intro t
    rw [TrueUserProfile.getBin_eq]
    omega
  · intro p t1 t2 h
    have hb : TrueUserProfile.getBin t1 = TrueUserProfile.getBin t2 := by
      rw [TrueUserProfile.getBin_eq, TrueUserProfile.getBin_eq, tmHour_congr h]
    have hfin : (⟨TrueUserProfile.getBin t1, TrueUserProfile.getBin_lt t1⟩ : Fin 48)
        = ⟨TrueUserProfile.getBin t2, TrueUserProfile.getBin_lt t2⟩ := Fin.ext hb
    exact ⟨congrArg p.InsulinSensitivity hfin, congrArg p.FoodSensitivity hfin,
      congrArg p.InsulinTa hfin, congrArg p.FoodTa hfin,
      congrArg p.LiverHourlyGlucose hfin⟩

/-- Witness for C10: 01:01:40 and 01:05:00 of the same day share all five
profile values. -/
theorem profile_absolute_lookup_hour_only_witness :
    ((3700 : ℤ) / 3600 = 3900 / 3600) ∧
    (testProfile.getInsulinSensitivity 3700 = testProfile.getInsulinSensitivity 3900 ∧
      testProfile.getFoodSensitivity 3700 = testProfile.getFoodSensitivity 3900 ∧
      testProfile.getInsulinTa 3700 = testProfile.getInsulinTa 3900 ∧
      testProfile.getFoodTa 3700 = testProfile.getFoodTa 3900 ∧
      testProfile.getLiverHourlyGlucose 3700 = testProfile.getLiverHourlyGlucose 3900) :=
  ⟨by decide, profile_absolute_lookup_hour_only.2 testProfile 3700 3900 (by decide)⟩

/-! ### C9: empty-snapshot lookup errors, non-empty lookup returns a value -/

theorem pyIndex_exists {α : Type} (l : List α) (i : ℤ) (h1 : -1 ≤ i)
    (h2 : i < l.length) (hne : 0 < l.length) : ∃ v, pyIndex l i = some v := by
  unfold pyIndex
  by_cases hi : i < 0
  · rw [if_pos hi]
    have hone : (-i).toNat = 1 := by omega
    rw [hone, if_pos (by omega)]
    have hlt : l.length - 1 < l.length := by omega
    exact ⟨l.get ⟨l.length - 1, hlt⟩, List.get?_eq_get hlt⟩
  · rw [if_neg hi]
    have hlt : i.toNat < l.length := by omega
    exact ⟨l.get ⟨i.toNat, hlt⟩, List.get?_eq_get hlt⟩

/-- C9: querying a value from an empty settings snapshot yields the
missing-settings error (`none`), while every non-empty snapshot query returns
a value. -/
theorem setting_lookup_empty_error_nonempty_value :
    (∀ timeOfDay_hr : ℚ, GetSettingAtTime [] timeOfDay_hr = none) ∧
    (∀ (settings : List (ℤ × ℝ)) (timeOfDay_hr : ℚ), settings ≠ [] →
      ∃ v, GetSettingAtTime settings timeOfDay_hr = some v) := by
  constructor
  · intro h
    rfl
  · intro s h hne
    have hlen : 0 < s.length := List.length_pos.mpr hne
    simp only [GetSettingAtTime]
    rw [if_neg (by omega)]
    apply pyIndex_exists
    · have := (s.filter (fun p => p.1 ≤ ⌊h * 3600⌋)).length
      omega
    · have hle : (s.filter (fun p => p.1 ≤ ⌊h * 3600⌋)).length ≤ s.length :=
        List.length_filter_le _ s
      have hml : (s.map Prod.snd).length = s.length := List.length_map s Prod.snd
      omega
    · have hml : (s.map Prod.snd).length = s.length := List.length_map s Prod.snd
      omega

/-- Witness for C9: a one-entry snapshot returns a value. -/
theorem setting_lookup_empty_error_nonempty_value_witness :
    ([((0 : ℤ), (7 : ℝ))] ≠ []) ∧
    ∃ v, GetSettingAtTime [((0 : ℤ), (7 : ℝ))] 1 = some v :=
  ⟨by simp, setting_lookup_empty_error_nonempty_value.2 [((0 : ℤ), (7 : ℝ))] 1 (by simp)⟩

/-! ### C7: snapshot selection by effective timestamp -/

theorem getLast?_cons_cons {α : Type} (a b : α) (l : List α) :
    (a :: b :: l).getLast? = (b :: l).getLast? := by
  simp [List.getLast?_cons_cons]

/-- Any element of a sorted tail is above the second head. -/
theorem sorted_tail_gt {α : Type} {p q : ℤ × α} {rest : List (ℤ × α)}
    (hchain : (p :: q :: rest).Chain' (fun a b => a.1 < b.1)) :
    ∀ r ∈ rest, q.1 < r.1 := by
  haveI : IsTrans (ℤ × α) (fun a b => a.1 < b.1) := ⟨fun _ _ _ h1 h2 => lt_trans h1 h2⟩
  have hpair : (p :: q :: rest).Pairwise (fun a b => a.1 < b.1) := by
    rw [← List.chain'_iff_pairwise]
    exact hchain
  have := (List.pairwise_cons.mp hpair).2
  exact (List.pairwise_cons.mp this).1

theorem snapshotLoop_false_spec {α : Type} (t : ℤ) :
    ∀ (l : List (ℤ × α)) (p : ℤ × α),
      (p :: l).Chain' (fun a b => a.1 < b.1) → p.1 ≤ t →
      snapshotLoop t (p :: l) false =
        ((p :: l).filter (fun q => q.1 ≤ t)).getLast?.map Prod.snd := by
  intro l
  induction l with
  | nil =>
    intro p _ hp
    simp [snapshotLoop, List.filter_cons, hp]
  | cons q rest ih =>
    intro p hchain hp
    by_cases hq : t < q.1
    · have hcond : (False ∧ t < p.1) ∨ (p.1 ≤ t ∧ t < q.1) := Or.inr ⟨hp, hq⟩
      have hrest : ∀ r ∈ rest, ¬ r.1 ≤ t := by
        intro r hr
        have := sorted_tail_gt hchain r hr
        omega
      have hfilter : (p :: q :: rest).filter (fun v => v.1 ≤ t) = [p] := by
        rw [List.filter_cons, if_pos (by simpa using hp), List.filter_cons,
          if_neg (by simpa using hq)]
        rw [List.filter_eq_nil_iff.mpr (by simpa using hrest)]
      rw [hfilter]
      simp [snapshotLoop, hp, hq]
    · push_neg at hq
      have hloop : snapshotLoop t (p :: q :: rest) false = snapshotLoop t (q :: rest) false := by
        simp only [snapshotLoop, Bool.false_eq_true, false_and, false_or]
        rw [if_neg (by omega : ¬ (p.1 ≤ t ∧ t < q.1))]
      rw [hloop, ih q hchain.tail hq]
      have hfilter : (p :: q :: rest).filter (fun v => v.1 ≤ t)
          = p :: (q :: rest).filter (fun v => v.1 ≤ t) := by
        rw [List.filter_cons, if_pos (by simpa using hp)]
      have hfq : (q :: rest).filter (fun v => v.1 ≤ t)
          = q :: rest.filter (fun v => v.1 ≤ t) := by
        rw [List.filter_cons, if_pos (by simpa using hq)]
      rw [hfilter, hfq, getLast?_cons_cons]

/-- C7: on a snapshot list sorted by effective timestamp, the snapshot lookup
returns the payload of the greatest effective timestamp `≤` the query, falling
back to the earliest snapshot when the query predates all of them (and `none`
only for an empty snapshot list). -/
theorem snapshot_selection {α : Type} (settings_24h : List (ℤ × α)) (the_time : ℤ)
    (hsorted : settings_24h.Chain' (fun a b => a.1 < b.1)) :
    getValidSnapshotAtTime settings_24h the_time =
      (((settings_24h.filter (fun p => p.1 ≤ the_time)).getLast?).orElse
        (fun _ => settings_24h.head?)).map Prod.snd := by
  match settings_24h, hsorted with
  | [], _ => rfl
  | [p], _ =>
    by_cases hp : p.1 ≤ the_time
    · simp [getValidSnapshotAtTime, snapshotLoop, List.filter_cons, hp, Option.orElse]
    · have hp' : the_time < p.1 := by omega
      simp [getValidSnapshotAtTime, snapshotLoop, List.filter_cons, hp, hp', Option.orElse]
  | p :: q :: rest, hsorted =>
    by_cases hp : p.1 ≤ the_time
    · have h1 : getValidSnapshotAtTime (p :: q :: rest) the_time
          = snapshotLoop the_time (p :: q :: rest) false := by
        by_cases hq : the_time < q.1
        · simp [getValidSnapshotAtTime, snapshotLoop, hp, hq]
        · push_neg at hq
          have hnp : ¬ the_time < p.1 := by omega
          simp [getValidSnapshotAtTime, snapshotLoop, hnp, hq]
      rw [h1, snapshotLoop_false_spec the_time (q :: rest) p hsorted hp]
      have hne : (p :: q :: rest).filter (fun v => v.1 ≤ the_time) ≠ [] := by
        rw [List.filter_cons, if_pos (by simpa using hp)]
        simp
      have hsome : ((p :: q :: rest).filter (fun v => v.1 ≤ the_time)).getLast?.isSome := by
        rw [List.getLast?_isSome]
        exact hne
      rcases Option.isSome_iff_exists.mp hsome with ⟨y, hy⟩
      rw [hy]
      simp [Option.orElse]
    · push_neg at hp
      have hall : ∀ r ∈ (p :: q :: rest), ¬ r.1 ≤ the_time := by
        haveI : IsTrans (ℤ × α) (fun a b => a.1 < b.1) :=
          ⟨fun _ _ _ h1 h2 => lt_trans h1 h2⟩
        have hpair : (p :: q :: rest).Pairwise (fun a b => a.1 < b.1) := by
          rw [← List.chain'_iff_pairwise]
          exact hsorted
        intro r hr
        rcases List.mem_cons.mp hr with h | h
        · rw [h]
          omega
        · have := (List.pairwise_cons.mp hpair).1 r h
          omega
      have hfilter : (p :: q :: rest).filter (fun v => v.1 ≤ the_time) = [] :=
        List.filter_eq_nil_iff.mpr (by simpa using hall)
      rw [hfilter]
      simp [getValidSnapshotAtTime, snapshotLoop, hp, Option.orElse]

/-- Witness for C7: snapshots effective 2019-01-01 and 2019-06-01 (UTC epochs);
a 2019-03-01 query resolves to the first and a 2019-07-01 query to the second. -/
theorem snapshot_selection_witness :
    ([((1546300800 : ℤ), 0), ((1559347200 : ℤ), 1)] :
        List (ℤ × ℕ)).Chain' (fun a b => a.1 < b.1) ∧
    getValidSnapshotAtTime [((1546300800 : ℤ), 0), ((1559347200 : ℤ), 1)]
      1551398400 = some 0 ∧
    getValidSnapshotAtTime [((1546300800 : ℤ), 0), ((1559347200 : ℤ), 1)]
      1561939200 = some 1 := by
  refine ⟨by norm_num [List.chain'_cons], ?_, ?_⟩
  · rw [snapshot_selection _ _ (by norm_num [List.chain'_cons])]
    decide
  · rw [snapshot_selection _ _ (by norm_num [List.chain'_cons])]
    decide

/-! ### C1: which TempBasal sets the step multiplier -/

/-- The factors of the `TempBasal` events whose closed interval contains the
step time, in container order. -/
noncomputable def coveringFactors (t : ℤ) (containers : List ContEvent) : List ℝ :=
  containers.filterMap (fun c =>
    match c with
    | .tempBasal a b f => if a > t ∨ t > b then none else some f
    | _ => none)

/-- Last element of a list, or the default when empty. -/
def lastOr : List ℝ → ℝ → ℝ
  | [], d => d
  | a :: l, _ => lastOr l a

theorem stepScan_factor (t : ℤ) (s bv : ℝ) :
    ∀ (cs : List ContEvent) (fe : List (ℤ × FattyInfo)) (f0 : ℝ),
      (stepScan t s bv cs fe f0).2 = lastOr (coveringFactors t cs) f0 := by
  intro cs
  induction cs with
  | nil => intro fe f0; rfl
  | cons c rest ih =>
    intro fe f0
    match c with
    | .tempBasal a b f =>
      by_cases hc : a > t ∨ t > b
      · simp only [stepScan, coveringFactors, List.filterMap_cons]
        rw [if_pos hc, if_pos hc]
        exact ih fe f0
      · simp only [stepScan, coveringFactors, List.filterMap_cons]
        rw [if_neg hc, if_neg hc]
        exact ih _ f
    | .suspend a b f => exact ih fe f0
    | .fatty g => exact ih fe f0
    | .other a b => exact ih fe f0

/-- C1 (amended): at each construction step the multiplier defaults to 1, and
the **last** `TempBasal` in the container covering the step sets the active
multiplier, whatever its value (the `multiplier > 1` test only controls the
fatty-glucose accumulation, not the multiplier assignment). -/
theorem tempBasal_scan_last_covering_wins (cs : List ContEvent) (t : ℤ)
    (insulin_sensi bolus_val : ℝ) (fe : List (ℤ × FattyInfo)) :
    (stepScan t insulin_sensi bolus_val cs fe 1).2 = lastOr (coveringFactors t cs) 1 :=
  stepScan_factor t insulin_sensi bolus_val cs fe 1

/-- C1 counterexample: with two covering overrides of factors 3/2 and 1/2 (in
that order), the step multiplier is 1/2 — the last covering override wins —
not 3/2, the last one with multiplier above 1. -/
theorem tempBasal_scan_not_last_gt_one_counterexample :
    (stepScan 500 0 0 [ContEvent.tempBasal 0 1000 (3 / 2),
        ContEvent.tempBasal 0 1000 (1 / 2)] [] 1).2 = 1 / 2 ∧
    ((1 : ℝ) / 2) ≠ 3 / 2 := by
  constructor
  · rw [stepScan_factor]
    have h1 : ¬ ((0 : ℤ) > 500 ∨ (500 : ℤ) > 1000) := by norm_num
    simp only [coveringFactors, List.filterMap_cons, List.filterMap_nil]
    rw [if_neg h1, if_neg h1]
    rfl
  · norm_num

/-! ### C3: suspend precedence -/

theorem suspendScan_no_active (t : ℤ) :
    ∀ (cs : List ContEvent) (f0 : ℝ),
      (∀ a b f, ContEvent.suspend a b f ∈ cs → ¬ (a < t ∧ t < b)) →
      suspendScan t cs f0 = f0 := by
  intro cs
  induction cs with
  | nil => intro f0 _; rfl
  | cons c rest ih =>
    intro f0 hno
    match c with
    | .suspend a b f =>
      have hnact : ¬ (a < t ∧ t < b) := hno a b f (List.mem_cons_self _ _)
      simp only [suspendScan]
      rw [if_neg hnact]
      exact ih f0 (fun a' b' f' h => hno a' b' f' (List.mem_cons_of_mem _ h))
    | .tempBasal a b f =>
      exact ih f0 (fun a' b' f' h => hno a' b' f' (List.mem_cons_of_mem _ h))
    | .fatty g =>
      exact ih f0 (fun a' b' f' h => hno a' b' f' (List.mem_cons_of_mem _ h))
    | .other a b =>
      exact ih f0 (fun a' b' f' h => hno a' b' f' (List.mem_cons_of_mem _ h))

theorem suspendScan_active_zero (t : ℤ) :
    ∀ (cs : List ContEvent) (f0 : ℝ),
      (∀ a b f, ContEvent.suspend a b f ∈ cs → f = 0) →
      (∃ a b f, ContEvent.suspend a b f ∈ cs ∧ a < t ∧ t < b) →
      suspendScan t cs f0 = 0 := by
  intro cs
  induction cs with
  | nil =>
    intro f0 _ hact
    rcases hact with ⟨a, b, f, hmem, _⟩
    exact absurd hmem (List.not_mem_nil _)
  | cons c rest ih =>
    intro f0 hz hact
    by_cases hrest : ∃ a b f, ContEvent.suspend a b f ∈ rest ∧ a < t ∧ t < b
    · match c with
      | .suspend a b f =>
        simp only [suspendScan]
        exact ih _ (fun a' b' f' h => hz a' b' f' (List.mem_cons_of_mem _ h)) hrest
      | .tempBasal a b f =>
        exact ih f0 (fun a' b' f' h => hz a' b' f' (List.mem_cons_of_mem _ h)) hrest
      | .fatty g =>
        exact ih f0 (fun a' b' f' h => hz a' b' f' (List.mem_cons_of_mem _ h)) hrest
      | .other a b =>
        exact ih f0 (fun a' b' f' h => hz a' b' f' (List.mem_cons_of_mem _ h)) hrest
    · rcases hact with ⟨a, b, f, hmem, hab⟩
      rcases List.mem_cons.mp hmem with hhead | htail
      · rw [← hhead]
        simp only [suspendScan]
        rw [if_pos hab]
        have hf : f = 0 := hz a b f hmem
        rw [hf]
        refine suspendScan_no_active t rest 0 ?_
        intro a' b' f' h hact'
        exact hrest ⟨a', b', f', h, hact'⟩
      · exact absurd ⟨a, b, f, htail, hab⟩ hrest

/-- The mini-bolus list produced by the construction loop: one
`InsulinBolus(u, nominal(u) * effectiveFactor(u))` per step, where the
effective factor is the suspend scan applied to the temp-basal scan result. -/
theorem runBasal_boluses (rates sensis : Fin 48 → ℝ) (cs : List ContEvent) :
    ∀ (steps : List ℤ) (fe : List (ℤ × FattyInfo)),
      (runBasal rates sensis cs steps fe).1 =
        steps.map (fun u => InsulinBolus.make u (basalNominal rates u *
          suspendScan u cs (lastOr (coveringFactors u cs) 1))) := by
  intro steps
  induction steps with
  | nil => intro fe; rfl
  | cons u ts ih =>
    intro fe
    simp only [runBasal, basalStep, List.map_cons, List.cons.injEq]
    constructor
    · rw [stepScan_factor]
    · exact ih _

/-- C3: at every construction step strictly inside a `Suspend` event's
interval, the effective multiplier for the emitted micro-bolus is 0 —
overriding any `TempBasal` multiplier — so the emitted micro-bolus at that
step carries zero insulin.  (The `Suspend` constructor fixes the stored
factor at 0, which the first hypothesis records.) -/
theorem suspend_forces_zero_multiplier (rates sensis : Fin 48 → ℝ)
    (cs : List ContEvent) (iov_0_utc iov_1_utc t : ℤ)
    (hz : ∀ a b f, ContEvent.suspend a b f ∈ cs → f = 0)
    (_ht : t ∈ basalSteps (hourAlign iov_0_utc) iov_1_utc)
    (hact : ∃ a b f, ContEvent.suspend a b f ∈ cs ∧ a < t ∧ t < b) :
    (∀ fe, (basalStep rates sensis cs t fe).2 = 0) ∧
    (∀ bl ∈ (BasalInsulin.make iov_0_utc iov_1_utc rates sensis cs).1.basalBoluses,
      bl.iov_0_utc = t → bl.insulin = 0) := by
  have hzero : ∀ x : ℝ, suspendScan t cs x = 0 := fun x =>
    suspendScan_active_zero t cs x hz hact
  constructor
  · intro fe
    simp only [basalStep]
    exact hzero _
  · intro bl hbl hiov
    have hrun : (BasalInsulin.make iov_0_utc iov_1_utc rates sensis cs).1.basalBoluses
        = (basalSteps (hourAlign iov_0_utc) iov_1_utc).map
          (fun u => InsulinBolus.make u (basalNominal rates u *
            suspendScan u cs (lastOr (coveringFactors u cs) 1))) := by
      simp only [BasalInsulin.make]
      exact runBasal_boluses rates sensis cs _ []
    rw [hrun] at hbl
    rcases List.mem_map.mp hbl with ⟨u, hu, hbl'⟩
    have hiovu : bl.iov_0_utc = u := by
      rw [← hbl']
      rfl
    have hut : u = t := by
      rw [← hiovu, hiov]
    rw [← hbl']
    show basalNominal rates u * suspendScan u cs (lastOr (coveringFactors u cs) 1) = 0
    rw [hut, hzero, mul_zero]

/-- Witness for C3: a suspend strictly covering step 0 zeroes the micro-bolus
despite a temp basal with factor 3/2 covering it. -/
theorem suspend_forces_zero_multiplier_witness :
    (∀ a b f, ContEvent.suspend a b f ∈
        [TempBasal.make 0 300 (3 / 2), Suspend.make (-10) 400] → f = 0) ∧
    ((0 : ℤ) ∈ basalSteps (hourAlign 0) 360) ∧
    (∃ a b f, ContEvent.suspend a b f ∈
        [TempBasal.make 0 300 (3 / 2), Suspend.make (-10) 400] ∧ a < 0 ∧ (0 : ℤ) < b) ∧
    ((∀ fe, (basalStep (fun _ => 1) (fun _ => -50)
        [TempBasal.make 0 300 (3 / 2), Suspend.make (-10) 400] 0 fe).2 = 0) ∧
      (∀ bl ∈ (BasalInsulin.make 0 360 (fun _ => 1) (fun _ => -50)
          [TempBasal.make 0 300 (3 / 2), Suspend.make (-10) 400]).1.basalBoluses,
        bl.iov_0_utc = 0 → bl.insulin = 0)) := by
  have hz : ∀ a b f, ContEvent.suspend a b f ∈
      [TempBasal.make 0 300 (3 / 2), Suspend.make (-10) 400] → f = 0 := by
    intro a b f hmem
    simp only [TempBasal.make, Suspend.make, List.mem_cons, List.not_mem_nil,
      or_false] at hmem
    rcases hmem with h | h
    · exact absurd h (by simp)
    · exact (ContEvent.suspend.injEq _ _ _ _ _ _).mp h |>.2.2
  have ht : (0 : ℤ) ∈ basalSteps (hourAlign 0) 360 := by
    have h0 : hourAlign 0 = 0 := by decide
    rw [h0, basalSteps_of_lt (by norm_num), basalSteps_of_ge (by norm_num)]
    simp
  have hact : ∃ a b f, ContEvent.suspend a b f ∈
      [TempBasal.make 0 300 (3 / 2), Suspend.make (-10) 400] ∧ a < 0 ∧ (0 : ℤ) < b :=
    ⟨-10, 400, 0, by simp [TempBasal.make, Suspend.make], by norm_num, by norm_num⟩
  exact ⟨hz, ht, hact,
    suspend_forces_zero_multiplier (fun _ => 1) (fun _ => -50) _ 0 360 0 hz ht hact⟩

/-! ### C5: additivity of the cumulative integral -/

/-- The scaled elapsed time is negative exactly when the query instant
precedes the event start. -/
theorem time_hr_neg {t iov_0_utc : ℤ} (h : t < iov_0_utc) :
    ((t - iov_0_utc : ℤ) : ℝ) / 3600 < 0 := by
  apply div_neg_of_neg_of_pos _ (by norm_num)
  exact_mod_cast (by omega : (t - iov_0_utc : ℤ) < 0)

theorem getIntegralBase_additive (iov_0_utc : ℤ) (TaOverride : Option ℝ)
    (magnitude : TrueUserProfile → ℝ) (p : TrueUserProfile) (k : TaKind)
    {t0 t1 t2 : ℤ} (h01 : t0 ≤ t1) (h12 : t1 ≤ t2) :
    getIntegralBase iov_0_utc TaOverride magnitude t0 t2 p k =
      getIntegralBase iov_0_utc TaOverride magnitude t0 t1 p k +
        getIntegralBase iov_0_utc TaOverride magnitude t1 t2 p k := by
  unfold getIntegralBase
  by_cases h2 : t2 < iov_0_utc
  · rw [if_pos h2, if_pos (by omega), if_pos (by omega)]
    norm_num
  · rw [if_neg h2]
    by_cases h1 : t1 < iov_0_utc
    · rw [if_pos h1, if_neg h2]
      have hc0 : InsulinActionCurve (((t0 - iov_0_utc : ℤ) : ℝ) / 3600)
          (getTa TaOverride p k iov_0_utc) = 0 :=
        InsulinActionCurve_of_neg _ (time_hr_neg (by omega))
      have hc1 : InsulinActionCurve (((t1 - iov_0_utc : ℤ) : ℝ) / 3600)
          (getTa TaOverride p k iov_0_utc) = 0 :=
        InsulinActionCurve_of_neg _ (time_hr_neg h1)
      simp only [hc0, hc1]
      ring
    · rw [if_neg h1, if_neg h2]
      ring

theorem list_sum_map_add {α : Type} (l : List α) (f g : α → ℝ) :
    (l.map (fun x => f x + g x)).sum = (l.map f).sum + (l.map g).sum := by
  induction l with
  | nil => simp
  | cons a t ih =>
    simp only [List.map_cons, List.sum_cons, ih]
    ring

/-- C5 (amended): every event that affects BG except `ExerciseEffect`
satisfies `integral(t0,t2) = integral(t0,t1) + integral(t1,t2)` for
`t0 ≤ t1 ≤ t2`: the curve-based events (`InsulinBolus`, `Food`,
`LiverFattyGlucose`), the mini-bolus aggregates (`BasalInsulin`,
`SquareWaveBolus`, `DualWaveBolus`), and `LiverBasalGlucose`'s bin-walk
integral; `ExerciseEffect`, which clips its integral to its own validity
interval, does not (see the counterexample). -/
theorem integral_additivity_curve_events :
    (∀ (b : InsulinBolus) (p : TrueUserProfile) (t0 t1 t2 : ℤ), t0 ≤ t1 → t1 ≤ t2 →
      b.getIntegral t0 t2 p = b.getIntegral t0 t1 p + b.getIntegral t1 t2 p) ∧
    (∀ (f : Food) (p : TrueUserProfile) (t0 t1 t2 : ℤ), t0 ≤ t1 → t1 ≤ t2 →
      f.getIntegral t0 t2 p = f.getIntegral t0 t1 p + f.getIntegral t1 t2 p) ∧
    (∀ (g : LiverFattyGlucose) (p : TrueUserProfile) (t0 t1 t2 : ℤ), t0 ≤ t1 → t1 ≤ t2 →
      g.getIntegral t0 t2 p = g.getIntegral t0 t1 p + g.getIntegral t1 t2 p) ∧
    (∀ (B : BasalInsulin) (p : TrueUserProfile) (t0 t1 t2 : ℤ), t0 ≤ t1 → t1 ≤ t2 →
      B.getIntegral t0 t2 p = B.getIntegral t0 t1 p + B.getIntegral t1 t2 p) ∧
    (∀ (sq : SquareWaveBolus) (p : TrueUserProfile) (t0 t1 t2 : ℤ), t0 ≤ t1 → t1 ≤ t2 →
      sq.getIntegral t0 t2 p = sq.getIntegral t0 t1 p + sq.getIntegral t1 t2 p) ∧
    (∀ (d : DualWaveBolus) (p : TrueUserProfile) (t0 t1 t2 : ℤ), t0 ≤ t1 → t1 ≤ t2 →
      d.getIntegral t0 t2 p = d.getIntegral t0 t1 p + d.getIntegral t1 t2 p) ∧
    (∀ (p : TrueUserProfile) (t0 t1 t2 : ℤ), t0 ≤ t1 → t1 ≤ t2 →
      LiverBasalGlucose.getIntegral t0 t2 p
        = LiverBasalGlucose.getIntegral t0 t1 p
          + LiverBasalGlucose.getIntegral t1 t2 p) := by
  have hbolus : ∀ (b : InsulinBolus) (p : TrueUserProfile) (t0 t1 t2 : ℤ),
      t0 ≤ t1 → t1 ≤ t2 →
      b.getIntegral t0 t2 p = b.getIntegral t0 t1 p + b.getIntegral t1 t2 p :=
    fun b p t0 t1 t2 h01 h12 =>
      getIntegralBase_additive b.iov_0_utc b.Ta b.getMagnitudeOfBGEffect p .insulin h01 h12
  have hsquare : ∀ (sq : SquareWaveBolus) (p : TrueUserProfile) (t0 t1 t2 : ℤ),
      t0 ≤ t1 → t1 ≤ t2 →
      sq.getIntegral t0 t2 p = sq.getIntegral t0 t1 p + sq.getIntegral t1 t2 p := by
    intro sq p t0 t1 t2 h01 h12
    unfold SquareWaveBolus.getIntegral
    have hfun : (fun c : InsulinBolus => c.getIntegral t0 t2 p)
        = fun c => c.getIntegral t0 t1 p + c.getIntegral t1 t2 p :=
      funext fun c => hbolus c p t0 t1 t2 h01 h12
    rw [hfun, list_sum_map_add]
  refine ⟨hbolus, ?_, ?_, ?_, hsquare, ?_, ?_⟩
  · intro f p t0 t1 t2 h01 h12
    exact getIntegralBase_additive f.iov_0_utc f.Ta f.getMagnitudeOfBGEffect p .food h01 h12
  · intro g p t0 t1 t2 h01 h12
    exact getIntegralBase_additive g.iov_0_utc (some g.Ta) g.getMagnitudeOfBGEffect p
      .insulin h01 h12
  · intro B p t0 t1 t2 h01 h12
    unfold BasalInsulin.getIntegral
    have hfun : (fun c : InsulinBolus => c.getIntegral t0 t2 p)
        = fun c => c.getIntegral t0 t1 p + c.getIntegral t1 t2 p :=
      funext fun c => hbolus c p t0 t1 t2 h01 h12
    rw [hfun, list_sum_map_add]
  · intro d p t0 t1 t2 h01 h12
    unfold DualWaveBolus.getIntegral
    rw [hsquare d.square p t0 t1 t2 h01 h12, hbolus d.inst p t0 t1 t2 h01 h12]
    ring
  · intro p t0 t1 t2 h01 h12
    exact liver_additive p h01 h12

/-- Witness for C5 with a concrete bolus and window split. -/
theorem integral_additivity_curve_events_witness :
    ((0 : ℤ) ≤ 1800 ∧ (1800 : ℤ) ≤ 7200) ∧
    (InsulinBolus.make 0 2).getIntegral 0 7200 testProfile =
      (InsulinBolus.make 0 2).getIntegral 0 1800 testProfile +
        (InsulinBolus.make 0 2).getIntegral 1800 7200 testProfile :=
  ⟨⟨by norm_num, by norm_num⟩,
    integral_additivity_curve_events.1 (InsulinBolus.make 0 2) testProfile 0 1800 7200
      (by norm_num) (by norm_num)⟩

/-- C5 counterexample: an `ExerciseEffect` on `[36000, 72000]` scaling a bolus
at 36000 violates additivity on `0 ≤ 36000 ≤ 72000`: the full-window integral
is clipped to 0 while the second half-window contributes a nonzero amount. -/
theorem exercise_integral_not_additive :
    ((0 : ℤ) ≤ 36000 ∧ (36000 : ℤ) ≤ 72000) ∧
    (ExerciseEffect.make 36000 72000 (1 / 2)
        [InsEvent.bolus (InsulinBolus.make 36000 1)]).getIntegral 0 72000 testProfile ≠
      (ExerciseEffect.make 36000 72000 (1 / 2)
          [InsEvent.bolus (InsulinBolus.make 36000 1)]).getIntegral 0 36000 testProfile +
        (ExerciseEffect.make 36000 72000 (1 / 2)
          [InsEvent.bolus (InsulinBolus.make 36000 1)]).getIntegral 36000 72000
          testProfile := by
  refine ⟨⟨by norm_num, by norm_num⟩, ?_⟩
  have hload : (ExerciseEffect.make 36000 72000 (1 / 2)
      [InsEvent.bolus (InsulinBolus.make 36000 1)]).affectedEvents
      = [InsEvent.bolus (InsulinBolus.make 36000 1)] := by
    simp only [ExerciseEffect.make, InsulinBolus.make, List.filter_cons, List.filter_nil]
    norm_num [InsEvent.iov_0_utc, InsEvent.iov_1_utc]
  have hfull : (ExerciseEffect.make 36000 72000 (1 / 2)
      [InsEvent.bolus (InsulinBolus.make 36000 1)]).getIntegral 0 72000 testProfile = 0 := by
    rw [ExerciseEffect.getIntegral, if_pos]
    left
    norm_num [ExerciseEffect.make]
  have hfirst : (ExerciseEffect.make 36000 72000 (1 / 2)
      [InsEvent.bolus (InsulinBolus.make 36000 1)]).getIntegral 0 36000 testProfile = 0 := by
    rw [ExerciseEffect.getIntegral, if_pos]
    left
    norm_num [ExerciseEffect.make]
  have hsecond : (ExerciseEffect.make 36000 72000 (1 / 2)
      [InsEvent.bolus (InsulinBolus.make 36000 1)]).getIntegral 36000 72000 testProfile
      = InsulinActionCurve 10 4 * (-50) * (1 / 2) := by
    rw [ExerciseEffect.getIntegral, if_neg (by norm_num [ExerciseEffect.make])]
    rw [hload]
    simp only [List.map_cons, List.map_nil, List.sum_cons, List.sum_nil, add_zero,
      InsEvent.getIntegral, InsulinBolus.getIntegral, getIntegralBase, InsulinBolus.make]
    rw [if_neg (by norm_num : ¬ (72000 : ℤ) < 36000)]
    simp only [InsulinBolus.getMagnitudeOfBGEffect, TrueUserProfile.getInsulinSensitivity,
      testProfile, getTa, TaKind.resolve, TrueUserProfile.getInsulinTa]
    have h1 : (((72000 : ℤ) - 36000 : ℤ) : ℝ) / 3600 = 10 := by norm_num
    have h2 : (((36000 : ℤ) - 36000 : ℤ) : ℝ) / 3600 = 0 := by norm_num
    rw [h1, h2, InsulinActionCurve_zero]
    simp only [ExerciseEffect.make]
    ring
  rw [hfull, hfirst, hsecond]
  have hpos : 0 < InsulinActionCurve 10 4 :=
    InsulinActionCurve_pos (by norm_num) (by norm_num)
  intro hcontra
  have : InsulinActionCurve 10 4 * (-50) * (1 / 2) = 0 := by linarith
  have h50 : InsulinActionCurve 10 4 * (-50) ≠ 0 :=
    mul_ne_zero (ne_of_gt hpos) (by norm_num)
  exact mul_ne_zero h50 (by norm_num) this

/-! ### C2: one fatty event per distinct override start -/

/-- The `bolusSlice` contributions one step generates, in container order. -/
noncomputable def stepContribs (t : ℤ) (insulin_sensi bolus_val : ℝ) :
    List ContEvent → List Contrib
  | [] => []
  | .tempBasal a b f :: cs =>
    if a > t ∨ t > b then stepContribs t insulin_sensi bolus_val cs
    else if f > 1 then
      ⟨a, b, f, -insulin_sensi * bolus_val * (f - 1)⟩ ::
        stepContribs t insulin_sensi bolus_val cs
    else stepContribs t insulin_sensi bolus_val cs
  | _ :: cs => stepContribs t insulin_sensi bolus_val cs

/-- All contributions of the construction loop, in step order. -/
noncomputable def stepsContribs (rates sensis : Fin 48 → ℝ) (cs : List ContEvent) :
    List ℤ → List Contrib
  | [] => []
  | t :: ts =>
    stepContribs t (sensis ⟨basalBin t, basalBin_lt t⟩) (basalNominal rates t) cs
      ++ stepsContribs rates sensis cs ts

theorem stepScan_fe (t : ℤ) (s bv : ℝ) :
    ∀ (cs : List ContEvent) (fe : List (ℤ × FattyInfo)) (f0 : ℝ),
      (stepScan t s bv cs fe f0).1 = (stepContribs t s bv cs).foldl applyContrib fe := by
  intro cs
  induction cs with
  | nil => intro fe f0; rfl
  | cons c rest ih =>
    intro fe f0
    match c with
    | .tempBasal a b f =>
      by_cases hc : a > t ∨ t > b
      · simp only [stepScan, stepContribs]
        rw [if_pos hc, if_pos hc]
        exact ih fe f0
      · by_cases hf : f > 1
        · simp only [stepScan, stepContribs]
          rw [if_neg hc, if_neg hc, if_pos hf, if_pos hf, List.foldl_cons]
          exact ih _ f
        · simp only [stepScan, stepContribs]
          rw [if_neg hc, if_neg hc, if_neg hf, if_neg hf]
          exact ih fe f
    | .suspend a b f => exact ih fe f0
    | .fatty g => exact ih fe f0
    | .other a b => exact ih fe f0

theorem runBasal_fe (rates sensis : Fin 48 → ℝ) (cs : List ContEvent) :
    ∀ (steps : List ℤ) (fe : List (ℤ × FattyInfo)),
      (runBasal rates sensis cs steps fe).2
        = (stepsContribs rates sensis cs steps).foldl applyContrib fe := by
  intro steps
  induction steps with
  | nil => intro fe; rfl
  | cons u ts ih =>
    intro fe
    simp only [runBasal, basalStep, stepsContribs, List.foldl_append]
    rw [ih, stepScan_fe]

theorem applyContrib_keys (fe : List (ℤ × FattyInfo)) (c : Contrib) :
    (applyContrib fe c).map Prod.fst =
      if c.key ∈ fe.map Prod.fst then fe.map Prod.fst
      else fe.map Prod.fst ++ [c.key] := by
  unfold applyContrib
  split
  · rw [List.map_map]
    apply List.map_congr_left
    intro p _
    by_cases hp : p.1 = c.key
    · simp [hp]
    · simp [hp]
  · simp

theorem foldl_applyContrib_mem :
    ∀ (l : List Contrib) (fe : List (ℤ × FattyInfo)) (k : ℤ),
      (k ∈ (l.foldl applyContrib fe).map Prod.fst ↔
        k ∈ fe.map Prod.fst ∨ k ∈ l.map Contrib.key) := by
  intro l
  induction l with
  | nil => simp
  | cons c rest ih =>
    intro fe k
    rw [List.foldl_cons, ih, applyContrib_keys]
    by_cases hc : c.key ∈ fe.map Prod.fst
    · rw [if_pos hc]
      simp only [List.map_cons, List.mem_cons]
      constructor
      · rintro (h | h)
        · exact Or.inl h
        · exact Or.inr (Or.inr h)
      · rintro (h | h | h)
        · exact Or.inl h
        · rw [h]
          exact Or.inl hc
        · exact Or.inr h
    · rw [if_neg hc]
      simp only [List.mem_append, List.mem_singleton, List.map_cons, List.mem_cons,
        List.not_mem_nil, or_false]
      tauto

theorem foldl_applyContrib_nodup :
    ∀ (l : List Contrib) (fe : List (ℤ × FattyInfo)),
      (fe.map Prod.fst).Nodup → ((l.foldl applyContrib fe).map Prod.fst).Nodup := by
  intro l
  induction l with
  | nil => intro fe h; exact h
  | cons c rest ih =>
    intro fe h
    rw [List.foldl_cons]
    apply ih
    rw [applyContrib_keys]
    by_cases hc : c.key ∈ fe.map Prod.fst
    · rw [if_pos hc]
      exact h
    · rw [if_neg hc]
      rw [List.nodup_append]
      exact ⟨h, List.nodup_singleton _, by simpa using fun hmem => hc hmem⟩

theorem find?_append_left {α : Type} (p : α → Bool) {l1 : List α} (l2 : List α)
    {a : α} (h : l1.find? p = some a) : (l1 ++ l2).find? p = some a := by
  induction l1 with
  | nil => simp at h
  | cons x t ih =>
    rw [List.cons_append]
    by_cases hx : p x
    · rw [List.find?_cons_of_pos _ hx] at h ⊢
      exact h
    · rw [List.find?_cons_of_neg _ hx] at h ⊢
      exact ih h

theorem find?_append_right {α : Type} (p : α → Bool) {l1 : List α} (l2 : List α)
    (h : ∀ x ∈ l1, ¬ p x = true) : (l1 ++ l2).find? p = l2.find? p := by
  induction l1 with
  | nil => simp
  | cons x t ih =>
    rw [List.cons_append, List.find?_cons_of_neg _ (h x (List.mem_cons_self _ _))]
    exact ih (fun y hy => h y (List.mem_cons_of_mem _ hy))

/-- The accumulated `BGEffect` for one dictionary key: the sum of the slices
of the contributions carrying that key. -/
noncomputable def keySlices (k : ℤ) (l : List Contrib) : ℝ :=
  ((l.filter (fun c => c.key = k)).map Contrib.slice).sum

theorem keySlices_nil (k : ℤ) : keySlices k [] = 0 := rfl

theorem keySlices_append (k : ℤ) (l1 l2 : List Contrib) :
    keySlices k (l1 ++ l2) = keySlices k l1 + keySlices k l2 := by
  simp [keySlices, List.filter_append]

theorem keySlices_singleton_of_eq {k : ℤ} {c : Contrib} (h : c.key = k) :
    keySlices k [c] = c.slice := by
  simp [keySlices, List.filter_cons, h]

theorem keySlices_singleton_of_ne {k : ℤ} {c : Contrib} (h : ¬ c.key = k) :
    keySlices k [c] = 0 := by
  simp [keySlices, List.filter_cons, h]

/-- Characterisation of the dictionary built by folding `applyContrib` over a
contribution list: each entry's static fields come from the first contribution
with its key, and its `BGEffect` is the sum of all slices with that key. -/
theorem foldl_applyContrib_entries :
    ∀ (l : List Contrib) (kp : ℤ × FattyInfo), kp ∈ l.foldl applyContrib [] →
      ∃ c0 : Contrib, l.find? (fun c => c.key = kp.1) = some c0 ∧
        kp.2.iov_0_utc = kp.1 ∧ kp.2.iov_1_utc = c0.iovEnd ∧
        kp.2.fractionOfBasal = c0.factor - 1 ∧
        kp.2.Ta_tempBasal = ((c0.iovEnd - kp.1 : ℤ) : ℝ) / 3600 ∧
        kp.2.BGEffect = keySlices kp.1 l := by
  intro l
  induction l using List.reverseRecOn with
  | nil => intro kp hkp; simp at hkp
  | append_singleton l c ih =>
    intro kp hkp
    rw [List.foldl_append, List.foldl_cons, List.foldl_nil] at hkp
    by_cases hc : c.key ∈ (l.foldl applyContrib []).map Prod.fst
    · rw [applyContrib, if_pos hc] at hkp
      rcases List.mem_map.mp hkp with ⟨q, hq, hupd⟩
      by_cases hqk : q.1 = c.key
      · rw [if_pos hqk] at hupd
        rcases ih q hq with ⟨c0, hfind, hi0, hi1, hfr, hta, hbg⟩
        refine ⟨c0, ?_, ?_, ?_, ?_, ?_, ?_⟩
        · rw [← hupd]
          exact find?_append_left _ _ hfind
        · rw [← hupd]
          exact hi0
        · rw [← hupd]
          exact hi1
        · rw [← hupd]
          exact hfr
        · rw [← hupd]
          exact hta
        · rw [← hupd]
          show q.2.BGEffect + c.slice = keySlices q.1 (l ++ [c])
          rw [keySlices_append, hbg, keySlices_singleton_of_eq (by rw [hqk])]
      · rw [if_neg hqk] at hupd
        subst hupd
        rcases ih q hq with ⟨c0, hfind, hi0, hi1, hfr, hta, hbg⟩
        refine ⟨c0, find?_append_left _ _ hfind, hi0, hi1, hfr, hta, ?_⟩
        rw [keySlices_append, keySlices_singleton_of_ne (fun h => hqk h.symm), add_zero]
        exact hbg
    · rw [applyContrib, if_neg hc] at hkp
      rcases List.mem_append.mp hkp with hmem | hnew
      · rcases ih kp hmem with ⟨c0, hfind, hi0, hi1, hfr, hta, hbg⟩
        have hkne : kp.1 ≠ c.key := by
          intro hkey
          exact hc (hkey ▸ List.mem_map_of_mem Prod.fst hmem)
        refine ⟨c0, find?_append_left _ _ hfind, hi0, hi1, hfr, hta, ?_⟩
        rw [keySlices_append, keySlices_singleton_of_ne (fun h => hkne h.symm), add_zero]
        exact hbg
      · have hkp' : kp = (c.key, c.initialInfo) := List.mem_singleton.mp hnew
        have hfnone : l.find? (fun c' => c'.key = c.key) = none := by
          rw [List.find?_eq_none]
          intro x hx
          simp only [decide_eq_true_eq]
          intro hxk
          apply hc
          rw [foldl_applyContrib_mem]
          right
          rw [← hxk]
          exact List.mem_map_of_mem Contrib.key hx
        have hfind : (l ++ [c]).find? (fun c' => c'.key = c.key) = some c := by
          rw [find?_append_right _ _ (fun x hx h => by
            rw [List.find?_eq_none] at hfnone
            exact hfnone x hx h)]
          exact List.find?_cons_of_pos _ (by simp)
        have hsl : keySlices c.key (l ++ [c]) = c.slice := by
          rw [keySlices_append, keySlices_singleton_of_eq rfl]
          have : keySlices c.key l = 0 := by
            have hfilt : l.filter (fun c' => c'.key = c.key) = [] := by
              rw [List.filter_eq_nil_iff]
              intro x hx
              simp only [decide_eq_true_eq]
              intro hxk
              rw [List.find?_eq_none] at hfnone
              exact hfnone x hx (by simp [hxk])
            rw [keySlices, hfilt]
            rfl
          rw [this, zero_add]
        rw [hkp']
        exact ⟨c, hfind, rfl, rfl, rfl, rfl, hsl.symm⟩

theorem mem_stepContribs_elim (t : ℤ) (s bv : ℝ) :
    ∀ (cs : List ContEvent) (c : Contrib), c ∈ stepContribs t s bv cs →
      ContEvent.tempBasal c.key c.iovEnd c.factor ∈ cs ∧ ¬ (c.key > t ∨ t > c.iovEnd) ∧
      c.factor > 1 ∧ c.slice = -s * bv * (c.factor - 1) := by
  intro cs
  induction cs with
  | nil => intro c hc; simp [stepContribs] at hc
  | cons c0 rest ih =>
    intro c hc
    match c0 with
    | .tempBasal a b f =>
      by_cases hcov : a > t ∨ t > b
      · rw [stepContribs, if_pos hcov] at hc
        rcases ih c hc with ⟨h1, h2, h3, h4⟩
        exact ⟨List.mem_cons_of_mem _ h1, h2, h3, h4⟩
      · by_cases hf : f > 1
        · rw [stepContribs, if_neg hcov, if_pos hf] at hc
          rcases List.mem_cons.mp hc with hhead | htail
          · rw [hhead]
            exact ⟨List.mem_cons_self _ _, hcov, hf, rfl⟩
          · rcases ih c htail with ⟨h1, h2, h3, h4⟩
            exact ⟨List.mem_cons_of_mem _ h1, h2, h3, h4⟩
        · rw [stepContribs, if_neg hcov, if_neg hf] at hc
          rcases ih c hc with ⟨h1, h2, h3, h4⟩
          exact ⟨List.mem_cons_of_mem _ h1, h2, h3, h4⟩
    | .suspend a b f =>
      rcases ih c hc with ⟨h1, h2, h3, h4⟩
      exact ⟨List.mem_cons_of_mem _ h1, h2, h3, h4⟩
    | .fatty g =>
      rcases ih c hc with ⟨h1, h2, h3, h4⟩
      exact ⟨List.mem_cons_of_mem _ h1, h2, h3, h4⟩
    | .other a b =>
      rcases ih c hc with ⟨h1, h2, h3, h4⟩
      exact ⟨List.mem_cons_of_mem _ h1, h2, h3, h4⟩

theorem mem_stepContribs_intro (t : ℤ) (s bv : ℝ) :
    ∀ (cs : List ContEvent) (a b : ℤ) (f : ℝ),
      ContEvent.tempBasal a b f ∈ cs → ¬ (a > t ∨ t > b) → f > 1 →
      (⟨a, b, f, -s * bv * (f - 1)⟩ : Contrib) ∈ stepContribs t s bv cs := by
  intro cs
  induction cs with
  | nil => intro a b f hmem; exact absurd hmem (List.not_mem_nil _)
  | cons c0 rest ih =>
    intro a b f hmem hcov hf
    rcases List.mem_cons.mp hmem with hhead | htail
    · rw [← hhead, stepContribs, if_neg hcov, if_pos hf]
      exact List.mem_cons_self _ _
    · match c0 with
      | .tempBasal a' b' f' =>
        by_cases hcov' : a' > t ∨ t > b'
        · rw [stepContribs, if_pos hcov']
          exact ih a b f htail hcov hf
        · by_cases hf' : f' > 1
          · rw [stepContribs, if_neg hcov', if_pos hf']
            exact List.mem_cons_of_mem _ (ih a b f htail hcov hf)
          · rw [stepContribs, if_neg hcov', if_neg hf']
            exact ih a b f htail hcov hf
      | .suspend a' b' f' => exact ih a b f htail hcov hf
      | .fatty g => exact ih a b f htail hcov hf
      | .other a' b' => exact ih a b f htail hcov hf

theorem mem_stepsContribs_elim (rates sensis : Fin 48 → ℝ) (cs : List ContEvent) :
    ∀ (steps : List ℤ) (c : Contrib), c ∈ stepsContribs rates sensis cs steps →
      ∃ u ∈ steps, c ∈ stepContribs u (sensis ⟨basalBin u, basalBin_lt u⟩)
        (basalNominal rates u) cs := by
  intro steps
  induction steps with
  | nil => intro c hc; simp [stepsContribs] at hc
  | cons u ts ih =>
    intro c hc
    rw [stepsContribs] at hc
    rcases List.mem_append.mp hc with hu | hts
    · exact ⟨u, List.mem_cons_self _ _, hu⟩
    · rcases ih c hts with ⟨u', hu', hc'⟩
      exact ⟨u', List.mem_cons_of_mem _ hu', hc'⟩

theorem mem_stepsContribs_intro (rates sensis : Fin 48 → ℝ) (cs : List ContEvent) :
    ∀ (steps : List ℤ) (u : ℤ) (c : Contrib), u ∈ steps →
      c ∈ stepContribs u (sensis ⟨basalBin u, basalBin_lt u⟩) (basalNominal rates u) cs →
      c ∈ stepsContribs rates sensis cs steps := by
  intro steps
  induction steps with
  | nil => intro u c hu; exact absurd hu (List.not_mem_nil _)
  | cons v ts ih =>
    intro u c hu hc
    rw [stepsContribs]
    rcases List.mem_cons.mp hu with hhead | htail
    · exact List.mem_append_left _ (hhead ▸ hc)
    · exact List.mem_append_right _ (ih u c htail hc)

theorem keySlices_stepsContribs (rates sensis : Fin 48 → ℝ) (cs : List ContEvent) (k : ℤ) :
    ∀ steps : List ℤ,
      keySlices k (stepsContribs rates sensis cs steps)
        = (steps.map (fun u => keySlices k (stepContribs u
            (sensis ⟨basalBin u, basalBin_lt u⟩) (basalNominal rates u) cs))).sum := by
  intro steps
  induction steps with
  | nil => rfl
  | cons u ts ih =>
    rw [stepsContribs, keySlices_append, List.map_cons, List.sum_cons, ih]

/-- The validity-starts of the `TempBasal` events of a container, in order. -/
def tempStarts : List ContEvent → List ℤ
  | [] => []
  | .tempBasal a _ _ :: cs => a :: tempStarts cs
  | .suspend _ _ _ :: cs => tempStarts cs
  | .fatty _ :: cs => tempStarts cs
  | .other _ _ :: cs => tempStarts cs

theorem mem_tempStarts {a b : ℤ} {f : ℝ} :
    ∀ {cs : List ContEvent}, ContEvent.tempBasal a b f ∈ cs → a ∈ tempStarts cs := by
  intro cs
  induction cs with
  | nil => intro h; exact absurd h (List.not_mem_nil _)
  | cons c0 rest ih =>
    intro h
    rcases List.mem_cons.mp h with hhead | htail
    · rw [← hhead, tempStarts]
      exact List.mem_cons_self _ _
    · match c0 with
      | .tempBasal a' b' f' => exact List.mem_cons_of_mem _ (ih htail)
      | .suspend a' b' f' => exact ih htail
      | .fatty g => exact ih htail
      | .other a' b' => exact ih htail

theorem temp_unique {k b b' : ℤ} {f f' : ℝ} :
    ∀ {cs : List ContEvent}, (tempStarts cs).Nodup →
      ContEvent.tempBasal k b f ∈ cs → ContEvent.tempBasal k b' f' ∈ cs →
      b = b' ∧ f = f' := by
  intro cs
  induction cs with
  | nil => intro _ h; exact absurd h (List.not_mem_nil _)
  | cons c0 rest ih =>
    intro hnd h1 h2
    match c0 with
    | .tempBasal a e g =>
      have hnd' : a ∉ tempStarts rest ∧ (tempStarts rest).Nodup := by
        rw [tempStarts] at hnd
        exact ⟨(List.nodup_cons.mp hnd).1, (List.nodup_cons.mp hnd).2⟩
      rcases List.mem_cons.mp h1 with hh1 | ht1 <;> rcases List.mem_cons.mp h2 with hh2 | ht2
      · have e1 := (ContEvent.tempBasal.injEq _ _ _ _ _ _).mp hh1
        have e2 := (ContEvent.tempBasal.injEq _ _ _ _ _ _).mp hh2
        exact ⟨e1.2.1.trans e2.2.1.symm, e1.2.2.trans e2.2.2.symm⟩
      · have e1 := (ContEvent.tempBasal.injEq _ _ _ _ _ _).mp hh1
        exact absurd (e1.1 ▸ mem_tempStarts ht2) hnd'.1
      · have e2 := (ContEvent.tempBasal.injEq _ _ _ _ _ _).mp hh2
        exact absurd (e2.1 ▸ mem_tempStarts ht1) hnd'.1
      · exact ih hnd'.2 ht1 ht2
    | .suspend a e g =>
      have ht1 : ContEvent.tempBasal k b f ∈ rest := by
        rcases List.mem_cons.mp h1 with hh | ht
        · exact absurd hh (by simp)
        · exact ht
      have ht2 : ContEvent.tempBasal k b' f' ∈ rest := by
        rcases List.mem_cons.mp h2 with hh | ht
        · exact absurd hh (by simp)
        · exact ht
      exact ih (by rwa [tempStarts] at hnd) ht1 ht2
    | .fatty g =>
      have ht1 : ContEvent.tempBasal k b f ∈ rest := by
        rcases List.mem_cons.mp h1 with hh | ht
        · exact absurd hh (by simp)
        · exact ht
      have ht2 : ContEvent.tempBasal k b' f' ∈ rest := by
        rcases List.mem_cons.mp h2 with hh | ht
        · exact absurd hh (by simp)
        · exact ht
      exact ih (by rwa [tempStarts] at hnd) ht1 ht2
    | .other a e =>
      have ht1 : ContEvent.tempBasal k b f ∈ rest := by
        rcases List.mem_cons.mp h1 with hh | ht
        · exact absurd hh (by simp)
        · exact ht
      have ht2 : ContEvent.tempBasal k b' f' ∈ rest := by
        rcases List.mem_cons.mp h2 with hh | ht
        · exact absurd hh (by simp)
        · exact ht
      exact ih (by rwa [tempStarts] at hnd) ht1 ht2

theorem stepContribs_filter_of_not_mem (t : ℤ) (s bv : ℝ) (cs : List ContEvent) (k : ℤ)
    (hnot : ∀ b f, ContEvent.tempBasal k b f ∉ cs) :
    (stepContribs t s bv cs).filter (fun c => c.key = k) = [] := by
  rw [List.filter_eq_nil_iff]
  intro c hc
  simp only [decide_eq_true_eq]
  intro hk
  rcases mem_stepContribs_elim t s bv cs c hc with ⟨h1, _, _, _⟩
  exact hnot c.iovEnd c.factor (hk ▸ h1)

theorem stepContribs_filter_unique (t : ℤ) (s bv : ℝ) {k b : ℤ} {f : ℝ} :
    ∀ {cs : List ContEvent}, (tempStarts cs).Nodup →
      ContEvent.tempBasal k b f ∈ cs →
      (stepContribs t s bv cs).filter (fun c => c.key = k)
        = if ¬ (k > t ∨ t > b) ∧ f > 1
          then [⟨k, b, f, -s * bv * (f - 1)⟩] else [] := by
  intro cs
  induction cs with
  | nil => intro _ hmem; exact absurd hmem (List.not_mem_nil _)
  | cons c0 rest ih =>
    intro hnd hmem
    match c0 with
    | .tempBasal a b' f' =>
      have hnd' : a ∉ tempStarts rest ∧ (tempStarts rest).Nodup := by
        rw [tempStarts] at hnd
        exact ⟨(List.nodup_cons.mp hnd).1, (List.nodup_cons.mp hnd).2⟩
      by_cases hak : a = k
      · have hhead : b' = b ∧ f' = f := by
          rcases List.mem_cons.mp hmem with hh | ht
          · have e := (ContEvent.tempBasal.injEq _ _ _ _ _ _).mp hh.symm
            exact ⟨e.2.1, e.2.2⟩
          · exact absurd (hak ▸ mem_tempStarts ht) hnd'.1
        have hrest0 : (stepContribs t s bv rest).filter (fun c => c.key = k) = [] := by
          apply stepContribs_filter_of_not_mem
          intro b'' f'' hmem''
          exact hnd'.1 (hak ▸ mem_tempStarts hmem'')
        rw [hak] at *
        rw [hhead.1, hhead.2] at *
        by_cases hcov : k > t ∨ t > b
        · rw [stepContribs, if_pos hcov, hrest0, if_neg (by tauto)]
        · by_cases hf : f > 1
          · rw [stepContribs, if_neg hcov, if_pos hf, List.filter_cons,
              if_pos (by simp), hrest0, if_pos ⟨hcov, hf⟩]
          · rw [stepContribs, if_neg hcov, if_neg hf, hrest0, if_neg (by tauto)]
      · have htail : ContEvent.tempBasal k b f ∈ rest := by
          rcases List.mem_cons.mp hmem with hh | ht
          · exact absurd ((ContEvent.tempBasal.injEq _ _ _ _ _ _).mp hh).1.symm hak
          · exact ht
        have hres := ih hnd'.2 htail
        by_cases hcov' : a > t ∨ t > b'
        · rw [stepContribs, if_pos hcov']
          exact hres
        · by_cases hf' : f' > 1
          · rw [stepContribs, if_neg hcov', if_pos hf', List.filter_cons,
              if_neg (by simpa using fun h => hak h)]
            exact hres
          · rw [stepContribs, if_neg hcov', if_neg hf']
            exact hres
    | .suspend a b'' f'' =>
      have htail : ContEvent.tempBasal k b f ∈ rest := by
        rcases List.mem_cons.mp hmem with hh | ht
        · exact absurd hh (by simp)
        · exact ht
      exact ih (by rwa [tempStarts] at hnd) htail
    | .fatty g =>
      have htail : ContEvent.tempBasal k b f ∈ rest := by
        rcases List.mem_cons.mp hmem with hh | ht
        · exact absurd hh (by simp)
        · exact ht
      exact ih (by rwa [tempStarts] at hnd) htail
    | .other a b'' =>
      have htail : ContEvent.tempBasal k b f ∈ rest := by
        rcases List.mem_cons.mp hmem with hh | ht
        · exact absurd hh (by simp)
        · exact ht
      exact ih (by rwa [tempStarts] at hnd) htail

theorem sum_map_ite_filter (P : ℤ → Prop) [DecidablePred P] (v : ℤ → ℝ) :
    ∀ steps : List ℤ,
      (steps.map (fun u => if P u then v u else 0)).sum
        = ((steps.filter (fun u => P u)).map v).sum := by
  intro steps
  induction steps with
  | nil => rfl
  | cons u ts ih =>
    rw [List.map_cons, List.sum_cons, List.filter_cons]
    by_cases hu : P u
    · rw [if_pos hu, if_pos (by simpa using hu), List.map_cons, List.sum_cons, ih]
    · rw [if_neg hu, if_neg (by simpa using hu), ih, zero_add]

/-- C2: one `BasalInsulin` construction pass appends to the shared container
exactly one `LiverFattyGlucose` per distinct override validity-start whose
multiplier exceeded 1 at a covered step; its magnitude is the sum over the
covered steps of `−sensitivity × nominalDose × (multiplier−1)` and its decay
constant is `1.4 ×` the override's duration in hours.  (The hypothesis that
temp-basal validity-starts are distinct makes "the override with that start"
well defined, matching the claim's "per distinct override validity-start".) -/
theorem basal_construction_fatty_events (iov_0_utc iov_1_utc : ℤ)
    (rates sensis : Fin 48 → ℝ) (cs : List ContEvent)
    (hnd : (tempStarts cs).Nodup) :
    ∀ fe, fe = (runBasal rates sensis cs (basalSteps (hourAlign iov_0_utc) iov_1_utc) []).2 →
      ((BasalInsulin.make iov_0_utc iov_1_utc rates sensis cs).2
          = cs ++ fe.map (fun p => ContEvent.fatty (LiverFattyGlucose.make p.2.iov_0_utc
              p.2.iov_1_utc p.2.BGEffect p.2.Ta_tempBasal p.2.fractionOfBasal))) ∧
      (fe.map Prod.fst).Nodup ∧
      (∀ k : ℤ, k ∈ fe.map Prod.fst ↔
        ∃ b f, ContEvent.tempBasal k b f ∈ cs ∧ f > 1 ∧
          ∃ u ∈ basalSteps (hourAlign iov_0_utc) iov_1_utc, ¬ (k > u ∨ u > b)) ∧
      (∀ (k b : ℤ) (f : ℝ) (info : FattyInfo), (k, info) ∈ fe →
        ContEvent.tempBasal k b f ∈ cs → f > 1 →
        info.BGEffect = (((basalSteps (hourAlign iov_0_utc) iov_1_utc).filter
              (fun u => ¬ (k > u ∨ u > b))).map
              (fun u => -(sensis ⟨basalBin u, basalBin_lt u⟩) * basalNominal rates u
                * (f - 1))).sum ∧
          info.iov_0_utc = k ∧ info.iov_1_utc = b ∧
          (LiverFattyGlucose.make info.iov_0_utc info.iov_1_utc info.BGEffect
              info.Ta_tempBasal info.fractionOfBasal).Ta
            = ((b - k : ℤ) : ℝ) / 3600 * 1.4) := by
  intro fe hfe
  have hfold : fe = (stepsContribs rates sensis cs
      (basalSteps (hourAlign iov_0_utc) iov_1_utc)).foldl applyContrib [] := by
    rw [hfe, runBasal_fe]
  refine ⟨?_, ?_, ?_, ?_⟩
  · rw [hfe]
    rfl
  · rw [hfold]
    exact foldl_applyContrib_nodup _ [] (by simp)
  · intro k
    rw [hfold, foldl_applyContrib_mem]
    simp only [List.map_nil, List.not_mem_nil, false_or]
    constructor
    · intro hk
      rcases List.mem_map.mp hk with ⟨c, hc, hck⟩
      rcases mem_stepsContribs_elim rates sensis cs _ c hc with ⟨u, hu, hcu⟩
      rcases mem_stepContribs_elim _ _ _ cs c hcu with ⟨h1, h2, h3, _⟩
      exact ⟨c.iovEnd, c.factor, hck ▸ h1, h3, u, hu, hck ▸ h2⟩
    · rintro ⟨b, f, hmem, hf, u, hu, hcov⟩
      have hc : (⟨k, b, f, -(sensis ⟨basalBin u, basalBin_lt u⟩) * basalNominal rates u
          * (f - 1)⟩ : Contrib) ∈ stepContribs u (sensis ⟨basalBin u, basalBin_lt u⟩)
          (basalNominal rates u) cs :=
        mem_stepContribs_intro _ _ _ cs k b f hmem hcov hf
      have hmemL := mem_stepsContribs_intro rates sensis cs _ u _ hu hc
      exact List.mem_map.mpr ⟨_, hmemL, rfl⟩
  · intro k b f info hkp hmem hf
    rw [hfold] at hkp
    rcases foldl_applyContrib_entries _ (k, info) hkp with ⟨c0, hfind, hi0, hi1, hfr, hta, hbg⟩
    have hi1' : info.iov_1_utc = c0.iovEnd := hi1
    have hta' : info.Ta_tempBasal = ((c0.iovEnd - k : ℤ) : ℝ) / 3600 := hta
    have hbg' : info.BGEffect = keySlices k (stepsContribs rates sensis cs
        (basalSteps (hourAlign iov_0_utc) iov_1_utc)) := hbg
    have hc0mem : c0 ∈ stepsContribs rates sensis cs
        (basalSteps (hourAlign iov_0_utc) iov_1_utc) :=
      List.mem_of_find?_eq_some hfind
    have hc0key : c0.key = k := by
      have := List.find?_some hfind
      simpa using this
    rcases mem_stepsContribs_elim rates sensis cs _ c0 hc0mem with ⟨u0, hu0, hcu0⟩
    rcases mem_stepContribs_elim _ _ _ cs c0 hcu0 with ⟨htmp, _, _, _⟩
    rw [hc0key] at htmp
    have huniq : c0.iovEnd = b ∧ c0.factor = f := temp_unique hnd htmp hmem
    refine ⟨?_, hi0, ?_, ?_⟩
    · rw [hbg', keySlices_stepsContribs]
      have hstep : ∀ u : ℤ,
          keySlices k (stepContribs u (sensis ⟨basalBin u, basalBin_lt u⟩)
            (basalNominal rates u) cs)
          = if ¬ (k > u ∨ u > b)
            then -(sensis ⟨basalBin u, basalBin_lt u⟩) * basalNominal rates u * (f - 1)
            else 0 := by
        intro u
        unfold keySlices
        rw [stepContribs_filter_unique u (sensis ⟨basalBin u, basalBin_lt u⟩)
          (basalNominal rates u) hnd hmem]
        by_cases hcov : k > u ∨ u > b
        · rw [if_neg (fun h => h.1 hcov), if_neg (fun h => h hcov)]
          rfl
        · rw [if_pos ⟨hcov, hf⟩, if_pos hcov]
          simp
      rw [List.map_congr_left (fun u _ => hstep u), sum_map_ite_filter]
    · rw [hi1', huniq.1]
    · have hmk : (LiverFattyGlucose.make info.iov_0_utc info.iov_1_utc info.BGEffect
          info.Ta_tempBasal info.fractionOfBasal).Ta = info.Ta_tempBasal * 1.4 := rfl
      rw [hmk, hta', huniq.1]

/-- Witness for C2: a single override of factor 3/2 on `[0, 3600]` during a
one-hour construction window. -/
theorem basal_construction_fatty_events_witness :
    (tempStarts [ContEvent.tempBasal 0 3600 (3 / 2)]).Nodup ∧
    (∀ fe, fe = (runBasal (fun _ => 1) (fun _ => -50) [ContEvent.tempBasal 0 3600 (3 / 2)]
        (basalSteps (hourAlign 0) 360) []).2 →
      ((BasalInsulin.make 0 360 (fun _ => 1) (fun _ => -50)
          [ContEvent.tempBasal 0 3600 (3 / 2)]).2
          = [ContEvent.tempBasal 0 3600 (3 / 2)] ++ fe.map
            (fun p => ContEvent.fatty (LiverFattyGlucose.make p.2.iov_0_utc
              p.2.iov_1_utc p.2.BGEffect p.2.Ta_tempBasal p.2.fractionOfBasal))) ∧
      (fe.map Prod.fst).Nodup ∧
      (∀ k : ℤ, k ∈ fe.map Prod.fst ↔
        ∃ b f, ContEvent.tempBasal k b f ∈ [ContEvent.tempBasal 0 3600 (3 / 2)] ∧ f > 1 ∧
          ∃ u ∈ basalSteps (hourAlign 0) 360, ¬ (k > u ∨ u > b)) ∧
      (∀ (k b : ℤ) (f : ℝ) (info : FattyInfo), (k, info) ∈ fe →
        ContEvent.tempBasal k b f ∈ [ContEvent.tempBasal 0 3600 (3 / 2)] → f > 1 →
        info.BGEffect = (((basalSteps (hourAlign 0) 360).filter
              (fun u => ¬ (k > u ∨ u > b))).map
              (fun u => -((fun _ : Fin 48 => (-50 : ℝ)) ⟨basalBin u, basalBin_lt u⟩)
                * basalNominal (fun _ => 1) u * (f - 1))).sum ∧
          info.iov_0_utc = k ∧ info.iov_1_utc = b ∧
          (LiverFattyGlucose.make info.iov_0_utc info.iov_1_utc info.BGEffect
              info.Ta_tempBasal info.fractionOfBasal).Ta
            = ((b - k : ℤ) : ℝ) / 3600 * 1.4)) :=
  ⟨by simp [tempStarts],
    basal_construction_fatty_events 0 360 (fun _ => 1) (fun _ => -50)
      [ContEvent.tempBasal 0 3600 (3 / 2)] (by simp [tempStarts])⟩

end BGModel
